import Mathlib

/-!
# Verification of the NetBox/Netmiko device importer core

Shallow embedding of the normalization-and-reconciliation engine of the
`netbox-netmiko-device-importer` repository, together with proofs and
refutations of the spec's claims about it.

The embedded source functions are:
* `slugify` (src/netbox_connector/netbox_devices_full.py, lines 26-31),
* `ProposalEngine._diff` / `_action_and_diff` / `build` and the per-entity
  proposal constructors (same file, lines 46-266),
* `ProposalEngine._load_state` (same file, lines 219-246),
* `NetboxDeviceBuilder._apply_lag_membership` (same file, lines 609-644),
* `RegexRule.apply`, `RulesEngine._apply_rules`, `RulesEngine.device_type_slug`
  and `RulesEngine._slugify` (src/netbox_connector/config_loader.py),
* the module-dedup helper `add_module` of
  `NetmikoDataCollector._harvest_nokia_sros`
  (src/netbox_connector/netmiko_ssh_handler.py, lines 167-183).

Python dictionaries whose values feed the generic diff machinery are
modelled as association lists `List (String × Option PyVal)`:
`none` stands for the Python value `None`, and a key that is absent from the
list stands for a key absent from the dict.  Only the operations the source
actually performs on these dicts (construction with literal keys, `get`,
key-replacing insertion, emptiness/truthiness tests) are modelled.
-/

namespace NetboxImporter

/-- A Python value as it occurs in the field maps the proposal engine
compares: strings, ints, bools, lists of strings (tags, LAG members) and
string-keyed string maps (custom fields).  Python `None` is represented by
`Option.none` one level up, not by a `PyVal` constructor. -/
inductive PyVal where
  | s (v : String)
  | i (v : Int)
  | b (v : Bool)
  | ls (v : List String)
  | smap (v : List (String × String))
deriving DecidableEq, Repr

/-- A Python dict used as a field map: association list, `none` = `None`. -/
abbrev PyDict := List (String × Option PyVal)

/-- `d.get(k)`: Python's `dict.get` with default `None`.  A key bound to
`None` and an absent key both yield `none`, exactly as in Python. -/
def pyGet (d : PyDict) (k : String) : Option PyVal :=
  match d.lookup k with
  | some v => v
  | none => none

/-- Keys of a field map. -/
def pyKeys (d : PyDict) : List String := d.map Prod.fst

/-- `ProposalEngine._diff` (netbox_devices_full.py lines 248-257):
with no current map, keep the non-null desired fields; otherwise keep the
desired fields whose current value differs (`current.get(key) != value`). -/
def engineDiff (desired : PyDict) (current : Option PyDict) : PyDict :=
  match current with
  | none => desired.filter (fun p => p.2 ≠ none)
  | some c => desired.filter (fun p => pyGet c p.1 ≠ p.2)

/-- Proposal actions. -/
inductive Action where
  | create
  | update
  | noop
deriving DecidableEq, Repr

/-- `ProposalEngine._action_and_diff` (netbox_devices_full.py lines 259-266).
`diff or desired` in the create branch is Python truthiness: an empty diff
dict falls back to the full desired map. -/
def actionAndDiff (desired : PyDict) (current : Option PyDict)
    (exists_ : Bool) : Action × Option PyDict :=
  if !exists_ then
    let diff := engineDiff desired none
    (.create, some (if diff.isEmpty then desired else diff))
  else
    let diff := engineDiff desired current
    if diff.isEmpty then (.noop, none) else (.update, some diff)

section DiffLemmas

/-- Membership characterization of `dict.get` on a dict with distinct keys. -/
theorem pyGet_of_mem {d : PyDict} {k : String} {v : Option PyVal}
    (hnd : (pyKeys d).Nodup) (hmem : (k, v) ∈ d) : pyGet d k = v := by
  induction d with
  | nil => cases hmem
  | cons p rest ih =>
    rcases List.mem_cons.mp hmem with h | h
    · subst h
      simp [pyGet, List.lookup]
    · have hk : k ≠ p.1 := by
        intro hkeq
        have : p.1 ∈ rest.map Prod.fst :=
          List.mem_map.mpr ⟨(k, v), h, by simp [hkeq]⟩
        exact (List.nodup_cons.mp hnd).1 this
      have hrest : (pyKeys rest).Nodup := (List.nodup_cons.mp hnd).2
      have hbeq : (k == p.1) = false := beq_eq_false_iff_ne.mpr hk
      have := ih hrest h
      simpa [pyGet, List.lookup, hbeq] using this

/-- Diffing a well-formed dict against itself yields the empty diff. -/
theorem engineDiff_self {d : PyDict} (hnd : (pyKeys d).Nodup) :
    engineDiff d (some d) = [] := by
  unfold engineDiff
  apply List.filter_eq_nil_iff.mpr
  intro p hp
  have : pyGet d p.1 = p.2 := pyGet_of_mem hnd hp
  simp [this]

/-- Keys produced by `engineDiff` always come from the desired map. -/
theorem engineDiff_keys_subset (desired : PyDict) (current : Option PyDict) :
    ∀ k, k ∈ pyKeys (engineDiff desired current) → k ∈ pyKeys desired := by
  intro k hk
  unfold engineDiff at hk
  cases current with
  | none =>
    rcases List.mem_map.mp hk with ⟨p, hp, hpk⟩
    exact List.mem_map.mpr ⟨p, (List.mem_filter.mp hp).1, hpk⟩
  | some c =>
    rcases List.mem_map.mp hk with ⟨p, hp, hpk⟩
    exact List.mem_map.mpr ⟨p, (List.mem_filter.mp hp).1, hpk⟩

/-- On a well-formed self-comparison the action is `noop` with no diff. -/
theorem actionAndDiff_self {d : PyDict} (hnd : (pyKeys d).Nodup) :
    actionAndDiff d (some d) true = (.noop, none) := by
  simp [actionAndDiff, engineDiff_self hnd]

end DiffLemmas

/-! ## Python `sorted`

Python's `sorted` is a stable comparison sort.  We model it as a stable
insertion sort parameterized by a boolean `≤` test: each element of the
input is inserted, in input order, after every already-placed element that
compares `≤` to it. -/

/-- Insert `x` into the sorted list, after all elements `y` with `le y x`. -/
def insertSorted (le : α → α → Bool) (x : α) : List α → List α
  | [] => [x]
  | y :: ys => if le y x then y :: insertSorted le x ys else x :: y :: ys

/-- Model of Python `sorted(l, key=...)` with comparison `le`. -/
def pySorted (le : α → α → Bool) (l : List α) : List α :=
  l.foldl (fun acc x => insertSorted le x acc) []

theorem insertSorted_perm (le : α → α → Bool) (x : α) (l : List α) :
    (insertSorted le x l).Perm (x :: l) := by
  induction l with
  | nil => rfl
  | cons y ys ih =>
    by_cases h : le y x
    · have h1 : insertSorted le x (y :: ys) = y :: insertSorted le x ys := by
        simp [insertSorted, h]
      rw [h1]
      exact (ih.cons y).trans (List.Perm.swap x y ys)
    · simp [insertSorted, h]

theorem pySorted_perm (le : α → α → Bool) (l : List α) : (pySorted le l).Perm l := by
  suffices h : ∀ acc : List α,
      (l.foldl (fun acc x => insertSorted le x acc) acc).Perm (acc.reverse ++ l) by
    simpa using h []
  induction l with
  | nil => intro acc; simpa using acc.reverse_perm.symm
  | cons x xs ih =>
    intro acc
    have h0 : (x :: xs).foldl (fun acc x => insertSorted le x acc) acc
        = xs.foldl (fun acc x => insertSorted le x acc) (insertSorted le x acc) := rfl
    rw [h0]
    refine (ih _).trans ?_
    refine (((insertSorted le x acc).reverse_perm).append_right xs).trans ?_
    refine ((insertSorted_perm le x acc).append_right xs).trans ?_
    have hmid : ((x :: acc) ++ xs).Perm (acc ++ (x :: xs)) := by
      simpa using (List.perm_middle : (acc ++ x :: xs).Perm (x :: (acc ++ xs))).symm
    exact hmid.trans ((acc.reverse_perm.symm).append_right _)

theorem insertSorted_pairwise (le : α → α → Bool)
    (htot : ∀ a b, le a b ∨ le b a) (htrans : ∀ a b c, le a b → le b c → le a c)
    (x : α) (l : List α) (hl : l.Pairwise (fun a b => le a b)) :
    (insertSorted le x l).Pairwise (fun a b => le a b) := by
  induction l with
  | nil => simp [insertSorted]
  | cons y ys ih =>
    rcases List.pairwise_cons.mp hl with ⟨hy, hys⟩
    by_cases h : le y x
    · have htail := ih hys
      have hyall : ∀ z ∈ insertSorted le x ys, le y z := by
        intro z hz
        have : z ∈ x :: ys := (insertSorted_perm le x ys).mem_iff.mp hz
        rcases List.mem_cons.mp this with hz' | hz'
        · subst hz'; exact h
        · exact hy z hz'
      simpa [insertSorted, h] using List.pairwise_cons.mpr ⟨hyall, htail⟩
    · have hxy : le x y := (htot x y).resolve_right (fun hc => h hc)
      have hxall : ∀ z ∈ y :: ys, le x z := by
        intro z hz
        rcases List.mem_cons.mp hz with hz' | hz'
        · subst hz'; exact hxy
        · exact htrans x y z hxy (hy z hz')
      simpa [insertSorted, h] using List.pairwise_cons.mpr ⟨hxall, hl⟩

theorem pySorted_pairwise (le : α → α → Bool)
    (htot : ∀ a b, le a b ∨ le b a) (htrans : ∀ a b c, le a b → le b c → le a c)
    (l : List α) : (pySorted le l).Pairwise (fun a b => le a b) := by
  suffices h : ∀ acc : List α, acc.Pairwise (fun a b => le a b) →
      (l.foldl (fun acc x => insertSorted le x acc) acc).Pairwise (fun a b => le a b) by
    exact h [] (by simp)
  induction l with
  | nil => intro acc hacc; simpa using hacc
  | cons x xs ih =>
    intro acc hacc
    exact ih _ (insertSorted_pairwise le htot htrans x acc hacc)

/-- Boolean string order: the Python `<=` on strings (code-point
lexicographic), expressed through the core decidable `<`. -/
def strLe (a b : String) : Bool := !(decide (b < a))

theorem strLe_iff (a b : String) : strLe a b = true ↔ a ≤ b := by
  simp [strLe, not_lt]

theorem strLe_total (a b : String) : strLe a b ∨ strLe b a := by
  rcases le_total a b with h | h
  · exact Or.inl ((strLe_iff a b).mpr h)
  · exact Or.inr ((strLe_iff b a).mpr h)

theorem strLe_trans (a b c : String) : strLe a b → strLe b c → strLe a c := by
  intro h1 h2
  exact (strLe_iff a c).mpr (le_trans ((strLe_iff a b).mp h1) ((strLe_iff b c).mp h2))

/-- Model of Python `sorted(set(l))` for strings: drop duplicates, sort. -/
def sortedSet (l : List String) : List String := pySorted strLe l.dedup

theorem mem_sortedSet {l : List String} {x : String} :
    x ∈ sortedSet l ↔ x ∈ l := by
  unfold sortedSet
  rw [(pySorted_perm strLe l.dedup).mem_iff]
  exact List.mem_dedup

theorem sortedSet_nodup (l : List String) : (sortedSet l).Nodup :=
  (pySorted_perm strLe l.dedup).nodup_iff.mpr l.nodup_dedup

theorem sortedSet_sorted (l : List String) :
    (sortedSet l).Pairwise (fun a b => strLe a b) :=
  pySorted_pairwise strLe strLe_total strLe_trans l.dedup

/-- Two string lists with the same elements have the same `sortedSet`. -/
theorem sortedSet_eq_of_mem_iff {l₁ l₂ : List String}
    (h : ∀ x, x ∈ l₁ ↔ x ∈ l₂) : sortedSet l₁ = sortedSet l₂ := by
  have hperm : (sortedSet l₁).Perm (sortedSet l₂) := by
    rw [List.perm_ext_iff_of_nodup (sortedSet_nodup l₁) (sortedSet_nodup l₂)]
    intro a
    rw [mem_sortedSet, mem_sortedSet]
    exact h a
  have hs₁ : List.Sorted (α := String) (· ≤ ·) (sortedSet l₁) :=
    List.Pairwise.imp (fun hab => (strLe_iff _ _).mp hab) (sortedSet_sorted l₁)
  have hs₂ : List.Sorted (α := String) (· ≤ ·) (sortedSet l₂) :=
    List.Pairwise.imp (fun hab => (strLe_iff _ _).mp hab) (sortedSet_sorted l₂)
  exact List.eq_of_perm_of_sorted hperm hs₁ hs₂

/-! ## Normalized data model (models.py) -/

/-- `NormalizedDevice` (models.py). -/
structure NormalizedDevice where
  name : String
  site_slug : String
  role_slug : String
  manufacturer_slug : String
  device_type_slug : String
  status : String := "active"
  serial : Option String := none
  asset_tag : Option String := none
  custom_fields : List (String × String) := []
  tags : List String := []
deriving DecidableEq, Repr

/-- `NormalizedModuleBay` (models.py). -/
structure NormalizedModuleBay where
  name : String
  label : Option String := none
  position : Option String := none
deriving DecidableEq, Repr

/-- `NormalizedModule` (models.py). -/
structure NormalizedModule where
  bay_name : String
  module_type_model : String
  status : String := "active"
  serial : Option String := none
  custom_fields : List (String × String) := []
deriving DecidableEq, Repr

/-- `NormalizedInterface` (models.py). -/
structure NormalizedInterface where
  name : String
  type_slug : String
  enabled : Bool := true
  description : Option String := none
  lag : Option String := none
  mtu : Option Int := none
  mac_address : Option String := none
  tagged_vlans : List String := []
  untagged_vlan : Option String := none
  custom_fields : List (String × String) := []
deriving DecidableEq, Repr

/-- `NormalizedLag` (models.py). -/
structure NormalizedLag where
  name : String
  description : Option String := none
  members : List String := []
  enabled : Bool := true
  custom_fields : List (String × String) := []
deriving DecidableEq, Repr

/-- `NormalizedInventory` (models.py). -/
structure NormalizedInventory where
  device : NormalizedDevice
  module_bays : List NormalizedModuleBay := []
  modules : List NormalizedModule := []
  interfaces : List NormalizedInterface := []
  lags : List NormalizedLag := []
deriving DecidableEq, Repr

/-- `Proposal` (models.py). -/
structure Proposal where
  action : Action
  model : String
  identifier : String
  desired : PyDict
  current : Option PyDict := none
  diff : Option PyDict := none
deriving DecidableEq, Repr

/-- `ProposalBatch` (models.py). -/
structure ProposalBatch where
  device : Proposal
  module_bays : List Proposal := []
  modules : List Proposal := []
  interfaces : List Proposal := []
  lags : List Proposal := []
deriving DecidableEq, Repr

/-- `ProposalBatch.actions` (models.py): the batch flattened in
device → bays → modules → interfaces → LAGs order. -/
def ProposalBatch.actions (b : ProposalBatch) : List Proposal :=
  b.device :: (b.module_bays ++ b.modules ++ b.interfaces ++ b.lags)

/-! ## Remote records and the state snapshot (`ProposalEngine._load_state`)

The remote inventory API returns records whose `serialize()` output is a
field map; we model each record kind as a structure holding exactly the
fields the engine reads from that map.  An `Option` field models a
serialized value that may be `None` (or an absent nested reference). -/

/-- The serialized form of a remote device record, restricted to the fields
`ProposalEngine._device_proposal` reads (netbox_devices_full.py 80-93). -/
structure RemoteDevice where
  name : Option String
  status_value : Option String
  site_slug : Option String
  role_slug : Option String
  device_type_slug : Option String
  manufacturer_slug : Option String
  serial : Option String
  asset_tag : Option String
  tag_slugs : List String
  custom_fields : Option (List (String × String))
deriving DecidableEq, Repr

/-- A serialized remote module-bay record (`data["name"]` is mandatory: the
snapshot keys bays by it). -/
structure RemoteBay where
  name : String
  label : Option String
  position : Option String
deriving DecidableEq, Repr

/-- A serialized remote module record; `bay_name` models
`(data.get("module_bay") or {}).get("name")`, with `""` playing the role of
both an absent and an empty name (both are falsy in Python). -/
structure RemoteModule where
  bay_name : String
  module_type_model : Option String
  status_value : Option String
  serial : Option String
deriving DecidableEq, Repr

/-- A serialized remote interface record; `lag_name` models
`(data.get("lag") or {}).get("name")`. -/
structure RemoteIface where
  name : String
  type_value : Option String
  enabled : Option Bool
  description : Option String
  lag_name : Option String
deriving DecidableEq, Repr

/-- The remote inventory system's answers for one device, as the engine
queries it: `device` is the record returned by
`dcim.devices.get(name=inventory.device.name)`, and the lists are the
`filter(device_id=...)` listings used by `_load_state`. -/
structure Remote where
  device : Option RemoteDevice
  bays : List RemoteBay
  modules : List RemoteModule
  interfaces : List RemoteIface
deriving DecidableEq, Repr

/-- Python `dict[k] = v` for the snapshot maps: replaces an existing binding
for `k`, otherwise adds one.  Only lookups are performed on these maps, so
binding order is irrelevant and we keep the new binding in front. -/
def dictInsert (m : List (String × α)) (k : String) (v : α) :
    List (String × α) :=
  (k, v) :: m.filter (fun p => !(p.1 == k))

/-- The truthy name of a serialized interface's `lag` reference:
`lag and lag.get("name")` — `None` and `""` are both falsy. -/
def truthyLagName (r : RemoteIface) : Option String :=
  match r.lag_name with
  | some n => if n = "" then none else some n
  | none => none

/-- `DeviceState` (netbox_devices_full.py lines 34-39). -/
structure DeviceState where
  module_bays : List (String × RemoteBay)
  modules : List (String × RemoteModule)
  interfaces : List (String × RemoteIface)
  lag_membership : List (String × List String)
deriving DecidableEq, Repr

/-- One step of the LAG-membership accumulation in `_load_state`:
`lag_membership.setdefault(lag["name"], set()).add(data["name"])`. -/
def addMembership (m : List (String × List String)) (lagName member : String) :
    List (String × List String) :=
  let cur := ((m.lookup lagName).getD [])
  dictInsert m lagName (if member ∈ cur then cur else cur ++ [member])

/-- `ProposalEngine._load_state` (netbox_devices_full.py lines 219-246). -/
def loadState (r : Remote) : DeviceState :=
  let module_bays := r.bays.foldl (fun m b => dictInsert m b.name b) []
  let modules := r.modules.foldl
    (fun m rec_ => if rec_.bay_name ≠ "" then dictInsert m rec_.bay_name rec_ else m) []
  let interfaces := r.interfaces.foldl (fun m i => dictInsert m i.name i) []
  let lag_membership := r.interfaces.foldl
    (fun m i => match truthyLagName i with
      | some lagName => addMembership m lagName i.name
      | none => m) []
  { module_bays := module_bays, modules := modules,
    interfaces := interfaces, lag_membership := lag_membership }

/-! ## The Proposal Engine (`ProposalEngine.build` and helpers) -/

/-- Python `a or b` for an optional string against a string default:
`None` and `""` are falsy. -/
def pyOrStr (o : Option String) (d : String) : String :=
  match o with
  | some s => if s = "" then d else s
  | none => d

/-- The desired field map of `_device_proposal` (lines 66-77). -/
def deviceDesired (device : NormalizedDevice) : PyDict :=
  [("name", some (.s device.name)),
   ("status", some (.s device.status)),
   ("site", some (.s device.site_slug)),
   ("role", some (.s device.role_slug)),
   ("device_type", some (.s device.device_type_slug)),
   ("manufacturer", some (.s device.manufacturer_slug)),
   ("serial", device.serial.map .s),
   ("asset_tag", device.asset_tag.map .s),
   ("tags", some (.ls device.tags)),
   ("custom_fields", some (.smap device.custom_fields))]

/-- The current field map of `_device_proposal` (lines 80-93). -/
def deviceCurrent (r : RemoteDevice) : PyDict :=
  [("name", r.name.map .s),
   ("status", r.status_value.map .s),
   ("site", r.site_slug.map .s),
   ("role", r.role_slug.map .s),
   ("device_type", r.device_type_slug.map .s),
   ("manufacturer", r.manufacturer_slug.map .s),
   ("serial", r.serial.map .s),
   ("asset_tag", r.asset_tag.map .s),
   ("tags", some (.ls r.tag_slugs)),
   ("custom_fields", r.custom_fields.map .smap)]

/-- `ProposalEngine._device_proposal` (lines 64-104). -/
def deviceProposal (device : NormalizedDevice)
    (existing : Option RemoteDevice) : Proposal :=
  let desired := deviceDesired device
  let current := existing.map deviceCurrent
  let ad := actionAndDiff desired current existing.isSome
  { action := ad.1, model := "device", identifier := device.name,
    desired := desired, current := current, diff := ad.2 }

/-- `ProposalEngine._module_bay_proposal` (lines 106-128). -/
def moduleBayProposal (bay : NormalizedModuleBay)
    (state : Option DeviceState) : Proposal :=
  let desired : PyDict :=
    [("name", some (.s bay.name)),
     ("label", some (.s (pyOrStr bay.label bay.name))),
     ("position", bay.position.map .s)]
  let existing := state.bind (fun s => s.module_bays.lookup bay.name)
  let current := existing.map (fun e =>
    [("name", some (.s e.name)),
     ("label", e.label.map .s),
     ("position", e.position.map .s)])
  let ad := actionAndDiff desired current existing.isSome
  { action := ad.1, model := "module_bay", identifier := bay.name,
    desired := desired, current := current, diff := ad.2 }

/-- `ProposalEngine._module_proposal` (lines 130-155).  The serialized
`(existing.get("module_bay") or {}).get("name")` is modelled through
`RemoteModule.bay_name` with `""` encoding a falsy (absent) name. -/
def moduleProposal (module : NormalizedModule)
    (state : Option DeviceState) : Proposal :=
  let desired : PyDict :=
    [("bay_name", some (.s module.bay_name)),
     ("module_type_model", some (.s module.module_type_model)),
     ("status", some (.s module.status)),
     ("serial", module.serial.map .s)]
  let existing := state.bind (fun s => s.modules.lookup module.bay_name)
  let current := existing.map (fun e =>
    [("bay_name", if e.bay_name = "" then none else some (.s e.bay_name)),
     ("module_type_model", e.module_type_model.map .s),
     ("status", e.status_value.map .s),
     ("serial", e.serial.map .s)])
  let ad := actionAndDiff desired current existing.isSome
  { action := ad.1, model := "module",
    identifier := module.bay_name ++ ":" ++ module.module_type_model,
    desired := desired, current := current, diff := ad.2 }

/-- The sort key of `_interfaces_proposals`:
`(iface.type_slug != "lag", iface.name)` under Python tuple order
(`False < True`, then code-point order on names). -/
def ifaceSortLe (a b : NormalizedInterface) : Bool :=
  let ka := !(a.type_slug == "lag")
  let kb := !(b.type_slug == "lag")
  (!ka && kb) || (ka == kb && strLe a.name b.name)

/-- The desired field map of one interface (lines 162-168). -/
def ifaceDesired (iface : NormalizedInterface) : PyDict :=
  let base : PyDict :=
    [("type", some (.s iface.type_slug)),
     ("enabled", some (.b iface.enabled)),
     ("description", iface.description.map .s)]
  match iface.lag with
  | some l => if l = "" then base else base ++ [("lag", some (.s l))]
  | none => base

/-- The current field map of one interface (lines 172-180). -/
def ifaceCurrent (e : RemoteIface) : PyDict :=
  let base : PyDict :=
    [("type", e.type_value.map .s),
     ("enabled", e.enabled.map .b),
     ("description", e.description.map .s)]
  match truthyLagName e with
  | some l => base ++ [("lag", some (.s l))]
  | none => base

/-- One interface proposal (loop body of `_interfaces_proposals`). -/
def ifaceProposal (iface : NormalizedInterface)
    (state : Option DeviceState) : Proposal :=
  let desired := ifaceDesired iface
  let existing := state.bind (fun s => s.interfaces.lookup iface.name)
  let current := existing.map ifaceCurrent
  let ad := actionAndDiff desired current existing.isSome
  { action := ad.1, model := "interface", identifier := iface.name,
    desired := desired, current := current, diff := ad.2 }

/-- `ProposalEngine._interfaces_proposals` (lines 157-193). -/
def interfacesProposals (interfaces : List NormalizedInterface)
    (state : Option DeviceState) : List Proposal :=
  (pySorted ifaceSortLe interfaces).map (fun i => ifaceProposal i state)

/-- `ProposalEngine._lag_proposals` (lines 195-217), loop body. -/
def lagProposal (lag : NormalizedLag) (state : Option DeviceState) : Proposal :=
  let desired_members := sortedSet lag.members
  let membership := (state.map (fun s => s.lag_membership)).getD []
  let current_members := sortedSet ((membership.lookup lag.name).getD [])
  let current : Option PyDict :=
    if current_members.isEmpty then none
    else some [("members", some (.ls current_members))]
  let exists_ := (((state.map (fun s => s.interfaces)).getD []).lookup lag.name).isSome
  let ad := actionAndDiff [("members", some (.ls desired_members))] current exists_
  { action := ad.1, model := "lag", identifier := lag.name,
    desired := [("members", some (.ls desired_members))],
    current := current, diff := ad.2 }

/-- `ProposalEngine._lag_proposals` (lines 195-217). -/
def lagProposals (lags : List NormalizedLag)
    (state : Option DeviceState) : List Proposal :=
  if lags.isEmpty then [] else lags.map (fun lag => lagProposal lag state)

/-- `ProposalEngine.build` (lines 46-62): the plan against the remote
state's answers for this device. -/
def build (inventory : NormalizedInventory) (remote : Remote) : ProposalBatch :=
  let existing_device := remote.device
  let state := if existing_device.isSome then some (loadState remote) else none
  { device := deviceProposal inventory.device existing_device,
    module_bays := inventory.module_bays.map (fun b => moduleBayProposal b state),
    modules := inventory.modules.map (fun m => moduleProposal m state),
    interfaces := interfacesProposals inventory.interfaces state,
    lags := lagProposals inventory.lags state }

/-- Modelled from the spec: the serialized remote device that mirrors a
normalized device exactly (every desired field holds its desired value). -/
def mirrorDevice (d : NormalizedDevice) : RemoteDevice :=
  { name := some d.name,
    status_value := some d.status,
    site_slug := some d.site_slug,
    role_slug := some d.role_slug,
    device_type_slug := some d.device_type_slug,
    manufacturer_slug := some d.manufacturer_slug,
    serial := d.serial,
    asset_tag := d.asset_tag,
    tag_slugs := d.tags,
    custom_fields := some d.custom_fields }

/-- Modelled from the spec: the remote module bay mirroring a normalized
bay (`label` carries the applied `bay.label or bay.name` default). -/
def mirrorBay (b : NormalizedModuleBay) : RemoteBay :=
  { name := b.name, label := some (pyOrStr b.label b.name),
    position := b.position }

/-- Modelled from the spec: the remote module mirroring a normalized one. -/
def mirrorModule (m : NormalizedModule) : RemoteModule :=
  { bay_name := m.bay_name, module_type_model := some m.module_type_model,
    status_value := some m.status, serial := m.serial }

/-- Modelled from the spec: the remote interface mirroring a normalized
one, with its `lag` reference carried by name. -/
def mirrorIface (i : NormalizedInterface) : RemoteIface :=
  { name := i.name, type_value := some i.type_slug,
    enabled := some i.enabled, description := i.description,
    lag_name := i.lag }

/-- Modelled from the spec: "a remote state that already matches that
inventory … in particular, against the remote state immediately after a
successful apply with nothing changed underneath".  The remote state in
which every entity of the inventory exists carrying exactly its desired
field values, and LAG membership is (as in NetBox) derived from the
interfaces' `lag` references. -/
def mirrorRemote (inv : NormalizedInventory) : Remote :=
  { device := some (mirrorDevice inv.device),
    bays := inv.module_bays.map mirrorBay,
    modules := inv.modules.map mirrorModule,
    interfaces := inv.interfaces.map mirrorIface }

/-- The truthy `lag` reference of a normalized interface, as both the
desired map construction (`if iface.lag:`) and the remote membership
derivation see it. -/
def invLagKey (i : NormalizedInterface) : Option String :=
  match i.lag with
  | some s => if s = "" then none else some s
  | none => none

/-! ## Lookup lemmas for the snapshot maps -/

section SnapshotLemmas

variable {α β : Type}

theorem lookup_dictInsert_self (m : List (String × α)) (k : String) (v : α) :
    (dictInsert m k v).lookup k = some v := by
  simp [dictInsert, List.lookup]

theorem lookup_filter_ne (m : List (String × α)) {k' k : String} (h : k' ≠ k) :
    (m.filter (fun p => !(p.1 == k))).lookup k' = m.lookup k' := by
  induction m with
  | nil => rfl
  | cons p rest ih =>
    by_cases hp : p.1 = k
    · have h1 : (p.1 == k) = true := beq_iff_eq.mpr hp
      have hne : (k' == p.1) = false :=
        beq_eq_false_iff_ne.mpr (fun he => h (he.trans hp))
      simp [List.filter_cons, h1, List.lookup, hne, ih]
    · have h1 : (p.1 == k) = false := beq_eq_false_iff_ne.mpr hp
      by_cases hk' : k' = p.1
      · have h2 : (k' == p.1) = true := beq_iff_eq.mpr hk'
        simp [List.filter_cons, h1, List.lookup, h2]
      · have h2 : (k' == p.1) = false := beq_eq_false_iff_ne.mpr hk'
        simp [List.filter_cons, h1, List.lookup, h2, ih]

theorem lookup_dictInsert_ne (m : List (String × α)) {k' k : String} (v : α)
    (h : k' ≠ k) : (dictInsert m k v).lookup k' = m.lookup k' := by
  have hne : (k' == k) = false := beq_eq_false_iff_ne.mpr h
  simp [dictInsert, List.lookup, hne, lookup_filter_ne m h]

/-- A key never inserted is looked up in the initial map. -/
theorem foldl_dictInsert_lookup_not_mem (key : β → String) (L : List β)
    (init : List (String × β)) {k : String} (hk : k ∉ L.map key) :
    ((L.foldl (fun m r => dictInsert m (key r) r) init).lookup k)
      = init.lookup k := by
  induction L generalizing init with
  | nil => rfl
  | cons r rest ih =>
    have hk1 : k ≠ key r := fun h => hk (by simp [h])
    have hk2 : k ∉ rest.map key := fun h => hk (by simp [h])
    simpa [ih _ hk2] using lookup_dictInsert_ne init (k := key r) r hk1

/-- With pairwise distinct keys, last-wins insertion finds each record. -/
theorem foldl_dictInsert_lookup_of_nodup (key : β → String) (L : List β)
    (init : List (String × β)) {x : β} (hnd : (L.map key).Nodup) (hx : x ∈ L) :
    ((L.foldl (fun m r => dictInsert m (key r) r) init).lookup (key x))
      = some x := by
  induction L generalizing init with
  | nil => cases hx
  | cons r rest ih =>
    rcases List.mem_cons.mp hx with h | h
    · subst h
      have hnotin : key x ∉ rest.map key := by
        have := List.nodup_cons.mp hnd
        exact this.1
      rw [List.foldl_cons, foldl_dictInsert_lookup_not_mem key rest _ hnotin]
      exact lookup_dictInsert_self init (key x) x
    · exact ih (dictInsert init (key r) r) (List.nodup_cons.mp hnd).2 h

/-- A guarded insert-fold equals the plain fold when every guard holds. -/
theorem foldl_guard_eq {γ : Type} (P : β → Prop) [DecidablePred P]
    (f : γ → β → γ) (L : List β) (init : γ) (hg : ∀ r ∈ L, P r) :
    L.foldl (fun m r => if P r then f m r else m) init = L.foldl f init := by
  induction L generalizing init with
  | nil => rfl
  | cons r rest ih =>
    have := hg r (List.mem_cons_self r rest)
    simp only [List.foldl_cons, if_pos this]
    exact ih _ (fun r' hr' => hg r' (List.mem_cons_of_mem r hr'))

/-- Elements of the set accumulated by `addMembership`. -/
theorem mem_addMembership (m : List (String × List String))
    (lagName member : String) (k x : String) :
    (x ∈ ((addMembership m lagName member).lookup k).getD []) ↔
      (if k = lagName then x ∈ ((m.lookup k).getD []) ∨ x = member
       else x ∈ ((m.lookup k).getD [])) := by
  by_cases hk : k = lagName
  · subst hk
    rw [show (addMembership m k member).lookup k
          = some (let cur := (m.lookup k).getD []
                  if member ∈ cur then cur else cur ++ [member]) from
        lookup_dictInsert_self _ _ _]
    by_cases hmem : member ∈ (m.lookup k).getD []
    · simp only [hmem, if_true]
      constructor
      · intro h; exact Or.inl h
      · rintro (h | h)
        · exact h
        · subst h; exact hmem
    · simp [hmem]
  · rw [show (addMembership m lagName member).lookup k = m.lookup k from
        lookup_dictInsert_ne _ _ hk]
    simp [hk]

/-- Characterization of the LAG-membership map built by `_load_state`:
a name is a member of `lagName`'s set iff some listed interface carries
that name and a truthy `lag` reference to `lagName`. -/
theorem mem_membership_fold (L : List RemoteIface)
    (init : List (String × List String)) (lagName x : String) :
    (x ∈ ((L.foldl (fun m i =>
        match truthyLagName i with
        | some l => addMembership m l i.name
        | none => m) init).lookup lagName).getD []) ↔
      (x ∈ ((init.lookup lagName).getD []) ∨
        ∃ i ∈ L, truthyLagName i = some lagName ∧ i.name = x) := by
  induction L generalizing init with
  | nil => simp
  | cons i rest ih =>
    rw [List.foldl_cons]
    cases htl : truthyLagName i with
    | none =>
      simp only [htl]
      rw [ih init]
      constructor
      · rintro (h | ⟨j, hj, hjl, hjn⟩)
        · exact Or.inl h
        · exact Or.inr ⟨j, List.mem_cons_of_mem i hj, hjl, hjn⟩
      · rintro (h | ⟨j, hj, hjl, hjn⟩)
        · exact Or.inl h
        · rcases List.mem_cons.mp hj with hji | hji
          · subst hji; rw [htl] at hjl; cases hjl
          · exact Or.inr ⟨j, hji, hjl, hjn⟩
    | some l =>
      simp only [htl]
      rw [ih (addMembership init l i.name)]
      rw [mem_addMembership init l i.name lagName x]
      by_cases hk : lagName = l
      · subst hk
        simp only [if_pos rfl]
        constructor
        · rintro ((h | h) | ⟨j, hj, hjl, hjn⟩)
          · exact Or.inl h
          · exact Or.inr ⟨i, List.mem_cons_self i rest, htl, h.symm⟩
          · exact Or.inr ⟨j, List.mem_cons_of_mem i hj, hjl, hjn⟩
        · rintro (h | ⟨j, hj, hjl, hjn⟩)
          · exact Or.inl (Or.inl h)
          · rcases List.mem_cons.mp hj with hji | hji
            · subst hji; exact Or.inl (Or.inr hjn.symm)
            · exact Or.inr ⟨j, hji, hjl, hjn⟩
      · simp only [if_neg hk]
        constructor
        · rintro (h | ⟨j, hj, hjl, hjn⟩)
          · exact Or.inl h
          · exact Or.inr ⟨j, List.mem_cons_of_mem i hj, hjl, hjn⟩
        · rintro (h | ⟨j, hj, hjl, hjn⟩)
          · exact Or.inl h
          · rcases List.mem_cons.mp hj with hji | hji
            · subst hji; rw [htl] at hjl
              exact absurd (Option.some_inj.mp hjl).symm hk
            · exact Or.inr ⟨j, hji, hjl, hjn⟩

/-- With distinct remote bay names, the snapshot finds each bay record. -/
theorem loadState_bays_lookup (r : Remote) {b : RemoteBay}
    (hnd : (r.bays.map (fun x => x.name)).Nodup) (hb : b ∈ r.bays) :
    (loadState r).module_bays.lookup b.name = some b := by
  unfold loadState
  exact foldl_dictInsert_lookup_of_nodup RemoteBay.name r.bays [] hnd hb

/-- With truthy, distinct remote module bay names, the snapshot finds each
module record under its bay name. -/
theorem loadState_modules_lookup (r : Remote) {m : RemoteModule}
    (hne : ∀ x ∈ r.modules, x.bay_name ≠ "")
    (hnd : (r.modules.map (fun x => x.bay_name)).Nodup) (hm : m ∈ r.modules) :
    (loadState r).modules.lookup m.bay_name = some m := by
  unfold loadState
  rw [foldl_guard_eq (fun rec_ => rec_.bay_name ≠ "")
    (fun m rec_ => dictInsert m rec_.bay_name rec_) r.modules [] hne]
  exact foldl_dictInsert_lookup_of_nodup RemoteModule.bay_name r.modules [] hnd hm

/-- With distinct remote interface names, the snapshot finds each
interface record. -/
theorem loadState_interfaces_lookup (r : Remote) {i : RemoteIface}
    (hnd : (r.interfaces.map (fun x => x.name)).Nodup) (hi : i ∈ r.interfaces) :
    (loadState r).interfaces.lookup i.name = some i := by
  unfold loadState
  exact foldl_dictInsert_lookup_of_nodup RemoteIface.name r.interfaces [] hnd hi

/-- The snapshot's LAG-membership sets, characterized by the interfaces'
truthy `lag` references. -/
theorem loadState_membership_mem (r : Remote) (lagName x : String) :
    (x ∈ (((loadState r).lag_membership.lookup lagName).getD [])) ↔
      ∃ i ∈ r.interfaces, truthyLagName i = some lagName ∧ i.name = x := by
  unfold loadState
  simpa using mem_membership_fold r.interfaces [] lagName x

end SnapshotLemmas

/-! ## Per-entity noop lemmas against the mirrored remote state -/

section MirrorNoop

theorem deviceCurrent_mirror (d : NormalizedDevice) :
    deviceCurrent (mirrorDevice d) = deviceDesired d := rfl

theorem deviceProposal_mirror_noop (d : NormalizedDevice) :
    (deviceProposal d (some (mirrorDevice d))).action = .noop := by
  have hkeys : (pyKeys (deviceDesired d)).Nodup := by
    have h : pyKeys (deviceDesired d) =
        ["name", "status", "site", "role", "device_type", "manufacturer",
         "serial", "asset_tag", "tags", "custom_fields"] := rfl
    rw [h]; decide
  simp [deviceProposal, deviceCurrent_mirror, actionAndDiff_self hkeys]

theorem moduleBayProposal_mirror_noop (b : NormalizedModuleBay)
    (S : DeviceState)
    (hlook : S.module_bays.lookup b.name = some (mirrorBay b)) :
    (moduleBayProposal b (some S)).action = .noop := by
  have hkeys : (pyKeys [("name", some (PyVal.s b.name)),
      ("label", some (PyVal.s (pyOrStr b.label b.name))),
      ("position", b.position.map PyVal.s)]).Nodup := by
    have h : pyKeys [("name", some (PyVal.s b.name)),
        ("label", some (PyVal.s (pyOrStr b.label b.name))),
        ("position", b.position.map PyVal.s)] = ["name", "label", "position"] := rfl
    rw [h]; decide
  simp [moduleBayProposal, hlook, mirrorBay, actionAndDiff_self hkeys]

theorem moduleProposal_mirror_noop (m : NormalizedModule) (S : DeviceState)
    (hne : m.bay_name ≠ "")
    (hlook : S.modules.lookup m.bay_name = some (mirrorModule m)) :
    (moduleProposal m (some S)).action = .noop := by
  have hkeys : (pyKeys [("bay_name", some (PyVal.s m.bay_name)),
      ("module_type_model", some (PyVal.s m.module_type_model)),
      ("status", some (PyVal.s m.status)),
      ("serial", m.serial.map PyVal.s)]).Nodup := by
    have h : pyKeys [("bay_name", some (PyVal.s m.bay_name)),
        ("module_type_model", some (PyVal.s m.module_type_model)),
        ("status", some (PyVal.s m.status)),
        ("serial", m.serial.map PyVal.s)] =
      ["bay_name", "module_type_model", "status", "serial"] := rfl
    rw [h]; decide
  simp [moduleProposal, hlook, mirrorModule, hne, actionAndDiff_self hkeys]

theorem ifaceCurrent_mirror (i : NormalizedInterface) :
    ifaceCurrent (mirrorIface i) = ifaceDesired i := by
  unfold ifaceCurrent ifaceDesired mirrorIface truthyLagName
  cases i.lag with
  | none => rfl
  | some s =>
    by_cases hs : s = "" <;> simp [hs]

theorem ifaceDesired_keys_nodup (i : NormalizedInterface) :
    (pyKeys (ifaceDesired i)).Nodup := by
  cases hlag : i.lag with
  | none =>
    have h : pyKeys (ifaceDesired i) = ["type", "enabled", "description"] := by
      simp [ifaceDesired, hlag, pyKeys]
    rw [h]; decide
  | some s =>
    by_cases hs : s = ""
    · have h : pyKeys (ifaceDesired i) = ["type", "enabled", "description"] := by
        simp [ifaceDesired, hlag, hs, pyKeys]
      rw [h]; decide
    · have h : pyKeys (ifaceDesired i) =
          ["type", "enabled", "description", "lag"] := by
        simp [ifaceDesired, hlag, hs, pyKeys]
      rw [h]; decide

theorem ifaceProposal_mirror_noop (i : NormalizedInterface) (S : DeviceState)
    (hlook : S.interfaces.lookup i.name = some (mirrorIface i)) :
    (ifaceProposal i (some S)).action = .noop := by
  simp [ifaceProposal, hlook, ifaceCurrent_mirror,
    actionAndDiff_self (ifaceDesired_keys_nodup i)]

theorem lagProposal_mirror_noop (lag : NormalizedLag) (S : DeviceState)
    (hex : (S.interfaces.lookup lag.name).isSome = true)
    (hmem : ∀ x, x ∈ ((S.lag_membership.lookup lag.name).getD []) ↔
      x ∈ lag.members)
    (hne : lag.members ≠ []) :
    (lagProposal lag (some S)).action = .noop := by
  have hcm : sortedSet ((S.lag_membership.lookup lag.name).getD []) =
      sortedSet lag.members := sortedSet_eq_of_mem_iff hmem
  have hnonempty : (sortedSet lag.members).isEmpty = false := by
    have hx : ∃ a, a ∈ lag.members := by
      cases hms : lag.members with
      | nil => exact absurd hms hne
      | cons a as => exact ⟨a, by exact List.mem_cons_self a as⟩
    rcases hx with ⟨a, ha⟩
    have ha' : a ∈ sortedSet lag.members := mem_sortedSet.mpr ha
    cases hss : sortedSet lag.members with
    | nil => rw [hss] at ha'; cases ha'
    | cons y ys => simp [List.isEmpty]
  have hkeys : (pyKeys
      [("members", some (PyVal.ls (sortedSet lag.members)))]).Nodup := by
    have h : pyKeys [("members", some (PyVal.ls (sortedSet lag.members)))] =
      ["members"] := rfl
    rw [h]; decide
  simp [lagProposal, hex, hcm, hnonempty, actionAndDiff_self hkeys]

end MirrorNoop

/-- C1 (amended): plan idempotence.  For every inventory satisfying the
spec's data-model invariants — unique module-bay names, at most one module
per bay with non-empty bay names, unique interface names, bidirectionally
consistent LAG membership, each LAG's own interface present in the
inventory — and in which every LAG has at least one member, running the
Proposal Engine's `build` against the remote state that mirrors the
inventory (the state immediately after a successful apply with nothing
changed underneath) yields a batch in which every proposal's action is
`noop`.  The unamended claim, quantifying over all inventories, fails on a
LAG with an empty member list (see the counterexample). -/
theorem C1_plan_idempotent_on_mirror (inv : NormalizedInventory)
    (hbays : (inv.module_bays.map (fun b => b.name)).Nodup)
    (hmods : (inv.modules.map (fun m => m.bay_name)).Nodup)
    (hmodsne : ∀ m ∈ inv.modules, m.bay_name ≠ "")
    (hifs : (inv.interfaces.map (fun i => i.name)).Nodup)
    (hlagne : ∀ lag ∈ inv.lags, lag.members ≠ [])
    (hlagif : ∀ lag ∈ inv.lags, ∃ i ∈ inv.interfaces, i.name = lag.name)
    (hmem1 : ∀ lag ∈ inv.lags, ∀ x ∈ lag.members,
      ∃ i ∈ inv.interfaces, invLagKey i = some lag.name ∧ i.name = x)
    (hmem2 : ∀ lag ∈ inv.lags, ∀ i ∈ inv.interfaces,
      invLagKey i = some lag.name → i.name ∈ lag.members) :
    ∀ p ∈ (build inv (mirrorRemote inv)).actions, p.action = .noop := by
  intro p hp
  have hndbays : ((mirrorRemote inv).bays.map (fun x => x.name)).Nodup := by
    simpa [mirrorRemote, mirrorBay, List.map_map, Function.comp] using hbays
  have hndmods : ((mirrorRemote inv).modules.map (fun x => x.bay_name)).Nodup := by
    simpa [mirrorRemote, mirrorModule, List.map_map, Function.comp] using hmods
  have hnemods : ∀ x ∈ (mirrorRemote inv).modules, x.bay_name ≠ "" := by
    intro x hx
    rcases List.mem_map.mp hx with ⟨m, hm, hxm⟩
    subst hxm
    simpa [mirrorModule] using hmodsne m hm
  have hndifs : ((mirrorRemote inv).interfaces.map (fun x => x.name)).Nodup := by
    simpa [mirrorRemote, mirrorIface, List.map_map, Function.comp] using hifs
  rw [ProposalBatch.actions] at hp
  rcases List.mem_cons.mp hp with hdev | hrest
  · subst hdev
    exact deviceProposal_mirror_noop inv.device
  rcases List.mem_append.mp hrest with hrest3 | hlag
  rcases List.mem_append.mp hrest3 with hrest2 | hif
  rcases List.mem_append.mp hrest2 with hbay | hmod
  · rcases List.mem_map.mp hbay with ⟨b, hbmem, hp⟩
    subst hp
    apply moduleBayProposal_mirror_noop
    have hb : mirrorBay b ∈ (mirrorRemote inv).bays :=
      List.mem_map_of_mem mirrorBay hbmem
    simpa [mirrorBay] using loadState_bays_lookup (mirrorRemote inv) hndbays hb
  · rcases List.mem_map.mp hmod with ⟨m, hmmem, hp⟩
    subst hp
    apply moduleProposal_mirror_noop m _ (hmodsne m hmmem)
    have hm : mirrorModule m ∈ (mirrorRemote inv).modules :=
      List.mem_map_of_mem mirrorModule hmmem
    simpa [mirrorModule] using
      loadState_modules_lookup (mirrorRemote inv) hnemods hndmods hm
  · rcases List.mem_map.mp hif with ⟨i, himem, hp⟩
    subst hp
    have himem' : i ∈ inv.interfaces :=
      (pySorted_perm ifaceSortLe inv.interfaces).mem_iff.mp himem
    apply ifaceProposal_mirror_noop
    have hi : mirrorIface i ∈ (mirrorRemote inv).interfaces :=
      List.mem_map_of_mem mirrorIface himem'
    simpa [mirrorIface] using
      loadState_interfaces_lookup (mirrorRemote inv) hndifs hi
  · have hlag' : p ∈ inv.lags.map
        (fun lag => lagProposal lag (some (loadState (mirrorRemote inv)))) := by
      by_cases hempty : inv.lags.isEmpty
      · rw [show (build inv (mirrorRemote inv)).lags = [] by
          simp [build, lagProposals, mirrorRemote, hempty]] at hlag
        cases hlag
      · rw [show (build inv (mirrorRemote inv)).lags = inv.lags.map
            (fun lag => lagProposal lag (some (loadState (mirrorRemote inv)))) by
          simp [build, lagProposals, mirrorRemote, hempty]] at hlag
        exact hlag
    rcases List.mem_map.mp hlag' with ⟨lag, hlmem, hp⟩
    subst hp
    apply lagProposal_mirror_noop lag _ ?hex ?hmem (hlagne lag hlmem)
    case hex =>
      rcases hlagif lag hlmem with ⟨i, himem, hiname⟩
      have hi : mirrorIface i ∈ (mirrorRemote inv).interfaces :=
        List.mem_map_of_mem mirrorIface himem
      have hlook := loadState_interfaces_lookup (mirrorRemote inv) hndifs hi
      have hname : (mirrorIface i).name = lag.name := by
        simpa [mirrorIface] using hiname
      rw [hname] at hlook
      rw [hlook]
      rfl
    case hmem =>
      intro x
      rw [loadState_membership_mem (mirrorRemote inv) lag.name x]
      constructor
      · rintro ⟨ri, hri, hritl, hrin⟩
        rcases List.mem_map.mp hri with ⟨i, himem, hri'⟩
        subst hri'
        have htl : invLagKey i = some lag.name := hritl
        have hres := hmem2 lag hlmem i himem htl
        have hrin' : i.name = x := by simpa [mirrorIface] using hrin
        exact hrin' ▸ hres
      · intro hx
        rcases hmem1 lag hlmem x hx with ⟨i, himem, hkey, hname⟩
        refine ⟨mirrorIface i, List.mem_map_of_mem mirrorIface himem, ?_, ?_⟩
        · exact hkey
        · simpa [mirrorIface] using hname

/-- A concrete device for the idempotence claim's test inventories. -/
def c1Device : NormalizedDevice :=
  { name := "SIM-SROS-01", site_slug := "lab", role_slug := "router",
    manufacturer_slug := "nokia", device_type_slug := "sros" }

/-- An inventory whose LAG has no members although its interface exists:
the plan against its own mirror is not all-`noop`. -/
def c1BadInventory : NormalizedInventory :=
  { device := c1Device,
    interfaces := [{ name := "LAG 1", type_slug := "lag" }],
    lags := [{ name := "LAG 1", members := [] }] }

/-- C1 counterexample: for the inventory with LAG `LAG 1` and member list
`[]`, the remote state mirroring the inventory (the LAG interface exists,
no interface references it — membership is exactly the desired empty set)
still receives a `lag` proposal with action `update`, because the engine
turns an empty current member list into `current = None` and then diffs
the desired map against nothing.  So the claim's universally quantified
idempotence is false. -/
theorem C1_counterexample :
    ¬ (∀ p ∈ (build c1BadInventory (mirrorRemote c1BadInventory)).actions,
        p.action = Action.noop) := by
  decide

/-- A well-formed concrete inventory (bays, module, LAG with one member,
consistent interfaces). -/
def c1GoodInventory : NormalizedInventory :=
  { device := c1Device,
    module_bays := [{ name := "Card A" }],
    modules := [{ bay_name := "Card A", module_type_model := "iom4-e" }],
    interfaces := [{ name := "LAG 1", type_slug := "lag" },
      { name := "1/1/1", type_slug := "other", lag := some "LAG 1" }],
    lags := [{ name := "LAG 1", members := ["1/1/1"] }] }

/-- C1 witness: the amended idempotence theorem applied to a concrete
well-formed inventory. -/
theorem C1_witness :
    ((build c1GoodInventory (mirrorRemote c1GoodInventory)).actions.all
      (fun p => decide (p.action = Action.noop))) = true := by
  have h := C1_plan_idempotent_on_mirror c1GoodInventory (by decide) (by decide)
    (by decide) (by decide) (by decide) (by decide) (by decide) (by decide)
  exact List.all_eq_true.mpr fun p hp => decide_eq_true (h p hp)

/-- C2 (amended): diff and action classification.  Against an existing
remote map, the diff is exactly the set of desired fields whose current
value differs, and the action is `update` precisely when that diff is
non-empty; desired equal to current gives `noop` with no diff; a
non-existing remote object always gives `create`, whose diff is the
desired map restricted to non-null fields whenever at least one desired
field is non-null (when every desired value is null the code falls back
to the full desired map — see the counterexample); and the concrete
instance `{a:1,b:2}` against `{a:1,b:3}` yields diff `{b:2}` and `update`. -/
theorem C2_diff_and_action_classification (d c : PyDict) (cur : Option PyDict)
    (hnd : (pyKeys d).Nodup) :
    (∀ k v, (k, v) ∈ engineDiff d (some c) ↔ ((k, v) ∈ d ∧ pyGet c k ≠ v)) ∧
    ((actionAndDiff d (some c) true).1 = Action.update ↔
      engineDiff d (some c) ≠ []) ∧
    (actionAndDiff d (some d) true = (Action.noop, none)) ∧
    ((actionAndDiff d cur false).1 = Action.create) ∧
    (∀ k v, (k, v) ∈ engineDiff d none ↔ ((k, v) ∈ d ∧ v ≠ none)) ∧
    (engineDiff d none ≠ [] →
      actionAndDiff d cur false = (Action.create, some (engineDiff d none))) ∧
    (actionAndDiff [("a", some (PyVal.i 1)), ("b", some (PyVal.i 2))]
        (some [("a", some (PyVal.i 1)), ("b", some (PyVal.i 3))]) true =
      (Action.update, some [("b", some (PyVal.i 2))])) := by
  refine ⟨?_, ?_, actionAndDiff_self hnd, ?_, ?_, ?_, by decide⟩
  · intro k v
    simp [engineDiff, List.mem_filter]
  · unfold actionAndDiff
    by_cases h : (engineDiff d (some c)).isEmpty
    · have h' : engineDiff d (some c) = [] := by
        simpa [List.isEmpty_iff] using h
      simp [h, h']
    · have h' : engineDiff d (some c) ≠ [] := by
        simpa [List.isEmpty_iff] using h
      simp [h, h']
  · rfl
  · intro k v
    simp [engineDiff, List.mem_filter]
  · intro h
    have h' : (engineDiff d none).isEmpty = false := by
      simpa [List.isEmpty_iff] using h
    simp [actionAndDiff, h']

/-- C2 counterexample: with desired `{a: None}` and no remote object the
code's proposal diff is the full `{a: None}` map (the `diff or desired`
fallback), not the claimed restriction to non-null fields, which is empty
here. -/
theorem C2_counterexample :
    (actionAndDiff [("a", none)] none false).2 ≠
      some (engineDiff [("a", none)] none) := by
  decide

/-- C2 witness: the classification theorem applied at the concrete maps
`{a:1,b:2}` and `{a:1,b:3}`. -/
theorem C2_witness :
    actionAndDiff [("a", some (PyVal.i 1)), ("b", some (PyVal.i 2))]
        (some [("a", some (PyVal.i 1)), ("b", some (PyVal.i 3))]) true =
      (Action.update, some [("b", some (PyVal.i 2))]) :=
  (C2_diff_and_action_classification
    [("a", some (PyVal.i 1)), ("b", some (PyVal.i 2))]
    [("a", some (PyVal.i 1)), ("b", some (PyVal.i 3))] none
    (by decide)).2.2.2.2.2.2

/-- C8: no-removal frame property.  Every key of an `engineDiff` result,
and every key of the diff a proposal carries, comes from the desired map;
keys present only in the current (remote) map never enter a diff. -/
theorem C8_diff_plans_no_removals (d : PyDict) (cur : Option PyDict) (e : Bool) :
    (∀ k, k ∈ pyKeys (engineDiff d cur) → k ∈ pyKeys d) ∧
    (∀ k, k ∈ pyKeys (((actionAndDiff d cur e).2).getD []) → k ∈ pyKeys d) := by
  refine ⟨engineDiff_keys_subset d cur, ?_⟩
  intro k hk
  cases e with
  | false =>
    by_cases h : (engineDiff d none).isEmpty
    · simp only [actionAndDiff, Bool.not_false, if_pos rfl] at hk
      rw [if_pos h] at hk
      simpa using hk
    · simp only [actionAndDiff, Bool.not_false, if_pos rfl] at hk
      rw [if_neg h] at hk
      exact engineDiff_keys_subset d none k (by simpa using hk)
  | true =>
    by_cases h : (engineDiff d cur).isEmpty
    · simp only [actionAndDiff, Bool.not_true] at hk
      rw [if_neg (by simp)] at hk
      rw [if_pos h] at hk
      simp [pyKeys] at hk
    · simp only [actionAndDiff, Bool.not_true] at hk
      rw [if_neg (by simp)] at hk
      rw [if_neg h] at hk
      exact engineDiff_keys_subset d cur k (by simpa using hk)

/-- C8 witness: the frame property applied at a concrete desired/current
pair where the remote map has an extra field `z`. -/
theorem C8_witness :
    "a" ∈ pyKeys [("a", some (PyVal.i 1))] :=
  (C8_diff_plans_no_removals [("a", some (PyVal.i 1))]
    (some [("a", some (PyVal.i 2)), ("z", some (PyVal.i 3))]) true).2
    "a" (by decide)

section InterfaceOrdering

theorem pyGet_ifaceDesired_type (i : NormalizedInterface) :
    pyGet (ifaceDesired i) "type" = some (PyVal.s i.type_slug) := by
  unfold ifaceDesired
  cases i.lag with
  | none => rfl
  | some s =>
    by_cases hs : s = "" <;> simp [hs, pyGet, List.lookup]

theorem ifaceSortLe_total (a b : NormalizedInterface) :
    ifaceSortLe a b = true ∨ ifaceSortLe b a = true := by
  unfold ifaceSortLe
  cases hA : (a.type_slug == "lag") <;> cases hB : (b.type_slug == "lag") <;>
    simp [hA, hB]
  · exact strLe_total a.name b.name
  · exact strLe_total a.name b.name

theorem ifaceSortLe_trans (a b c : NormalizedInterface) :
    ifaceSortLe a b = true → ifaceSortLe b c = true → ifaceSortLe a c = true := by
  unfold ifaceSortLe
  cases hA : (a.type_slug == "lag") <;> cases hB : (b.type_slug == "lag") <;>
    cases hC : (c.type_slug == "lag") <;> simp [hA, hB, hC]
  · exact strLe_trans a.name b.name c.name
  · exact strLe_trans a.name b.name c.name

theorem ifaceSortLe_implies {i j : NormalizedInterface}
    (h : ifaceSortLe i j = true) :
    (j.type_slug = "lag" → i.type_slug = "lag") ∧
    ((i.type_slug = "lag" ↔ j.type_slug = "lag") → i.name ≤ j.name) := by
  unfold ifaceSortLe at h
  cases hA : (i.type_slug == "lag") <;> cases hB : (j.type_slug == "lag") <;>
    rw [hA, hB] at h <;> simp at h
  · have hB' : j.type_slug ≠ "lag" := beq_eq_false_iff_ne.mp hB
    exact ⟨fun hj => absurd hj hB', fun _ => (strLe_iff _ _).mp h⟩
  · have hA' : i.type_slug = "lag" := beq_iff_eq.mp hA
    have hB' : j.type_slug ≠ "lag" := beq_eq_false_iff_ne.mp hB
    exact ⟨fun hj => absurd hj hB',
      fun hiff => absurd (hiff.mp hA') hB'⟩
  · have hA' : i.type_slug = "lag" := beq_iff_eq.mp hA
    exact ⟨fun _ => hA', fun _ => (strLe_iff _ _).mp h⟩

/-- C7: interface proposal ordering.  The interface proposals list every
inventory interface (their identifiers are a permutation of the interface
names), and in proposal order a LAG-typed interface (`desired["type"] =
"lag"`) never follows a physical one, with names ascending within each of
the two groups — so each physical member's LAG interface appears earlier
in the sequence than the member itself. -/
theorem C7_interface_proposal_ordering (ifaces : List NormalizedInterface)
    (state : Option DeviceState) :
    (((interfacesProposals ifaces state).map (fun p => p.identifier)).Perm
      (ifaces.map (fun i => i.name))) ∧
    (interfacesProposals ifaces state).Pairwise (fun p q =>
      (pyGet q.desired "type" = some (PyVal.s "lag") →
        pyGet p.desired "type" = some (PyVal.s "lag")) ∧
      ((pyGet p.desired "type" = some (PyVal.s "lag") ↔
        pyGet q.desired "type" = some (PyVal.s "lag")) →
        p.identifier ≤ q.identifier)) := by
  constructor
  · have h1 : (interfacesProposals ifaces state).map (fun p => p.identifier)
        = (pySorted ifaceSortLe ifaces).map (fun i => i.name) := by
      unfold interfacesProposals
      rw [List.map_map]
      rfl
    rw [h1]
    exact (pySorted_perm ifaceSortLe ifaces).map (fun i => i.name)
  · unfold interfacesProposals
    refine List.Pairwise.map _ ?_
      (pySorted_pairwise ifaceSortLe ifaceSortLe_total ifaceSortLe_trans ifaces)
    intro i j hij
    have himp := ifaceSortLe_implies hij
    have hti : pyGet (ifaceProposal i state).desired "type"
        = some (PyVal.s i.type_slug) := pyGet_ifaceDesired_type i
    have htj : pyGet (ifaceProposal j state).desired "type"
        = some (PyVal.s j.type_slug) := pyGet_ifaceDesired_type j
    constructor
    · intro hq
      rw [htj] at hq
      have hj : j.type_slug = "lag" := by simpa using hq
      rw [hti, himp.1 hj]
    · intro hiff
      rw [hti, htj] at hiff
      have hiff' : i.type_slug = "lag" ↔ j.type_slug = "lag" := by
        simpa using hiff
      exact himp.2 hiff'

/-- C7 has no standalone hypothesis, but for concreteness: ordering on a
list where the LAG interface is declared after its member. -/
theorem C7_example :
    ((interfacesProposals
      [{ name := "1/1/1", type_slug := "other", lag := some "LAG 1" },
       { name := "LAG 1", type_slug := "lag" }] none).map
        (fun p => (p.identifier, p.action))) =
      [("LAG 1", Action.create), ("1/1/1", Action.create)] := by
  decide

end InterfaceOrdering

/-! ## LAG membership reconciliation
(`NetboxDeviceBuilder._apply_lag_membership`, netbox_devices_full.py
lines 609-644)

The remote interface table during apply is modelled as a list of records
carrying a name and a `lag` reference.  NetBox identifies the LAG by the
numeric id of the LAG interface record; since the engine always resolves
that id from the LAG's name (unique per device), the model carries the
reference by name. -/

/-- A remote interface as the membership pass reads and partially
updates it. -/
structure ApplyIface where
  name : String
  lag : Option String
deriving DecidableEq, Repr

/-- `iface.update({"lag": v})` for the interface(s) named `n`. -/
def setLag (st : List ApplyIface) (n : String) (v : Option String) :
    List ApplyIface :=
  st.map (fun i => if i.name = n then { i with lag := v } else i)

/-- `{record.name for record in interfaces.filter(lag_id=lag_id)}`:
the names of the interfaces currently referencing the LAG. -/
def currentMembers (st : List ApplyIface) (lagName : String) : List String :=
  (st.filter (fun i => i.lag == some lagName)).map (fun i => i.name)

/-- `for member in sorted(to_add): ... iface.update({"lag": lag_id})`,
collecting the issued partial updates; a missing member is a hard error. -/
def applyAdds (st : List ApplyIface) (lagName : String) :
    List String → Except String (List ApplyIface × List (String × Option String))
  | [] => .ok (st, [])
  | m :: ms =>
    match st.find? (fun i => i.name == m) with
    | none => .error ("Interface " ++ m ++ " not found while adding to " ++ lagName)
    | some _ =>
      match applyAdds (setLag st m (some lagName)) lagName ms with
      | .ok (st', upds) => .ok (st', (m, some lagName) :: upds)
      | .error e => .error e

/-- `for member in sorted(to_remove): ... iface.update({"lag": None})`;
a missing member is skipped (`continue`). -/
def applyRemoves (st : List ApplyIface) (lagName : String) :
    List String → List ApplyIface × List (String × Option String)
  | [] => (st, [])
  | m :: ms =>
    match st.find? (fun i => i.name == m) with
    | none => applyRemoves st lagName ms
    | some _ =>
      let res := applyRemoves (setLag st m none) lagName ms
      (res.1, (m, none) :: res.2)

/-- One iteration of `_apply_lag_membership` for one proposal: skip
`noop`, resolve the LAG interface (error when absent), compute
`to_add = desired - current` and `to_remove = current - desired` as sets,
then issue the updates in sorted order, additions first. -/
def applyLagProposal (st : List ApplyIface) (p : Proposal) :
    Except String (List ApplyIface × List (String × Option String)) :=
  if p.action = .noop then .ok (st, [])
  else
    let desired_members : List String :=
      match pyGet p.desired "members" with
      | some (.ls l) => l
      | _ => []
    let lagName := p.identifier
    match st.find? (fun i => i.name == lagName) with
    | none => .error ("LAG interface " ++ lagName ++ " not found when setting membership")
    | some _ =>
      let current := currentMembers st lagName
      let to_add := sortedSet (desired_members.filter (fun m => !(current.contains m)))
      let to_remove := sortedSet (current.filter (fun m => !(desired_members.contains m)))
      match applyAdds st lagName to_add with
      | .error e => .error e
      | .ok (st1, upds1) =>
        let res := applyRemoves st1 lagName to_remove
        .ok (res.1, upds1 ++ res.2)

/-- `NetboxDeviceBuilder._apply_lag_membership`: the loop over all LAG
proposals. -/
def applyLagMembership (st : List ApplyIface) :
    List Proposal → Except String (List ApplyIface × List (String × Option String))
  | [] => .ok (st, [])
  | p :: ps =>
    match applyLagProposal st p with
    | .error e => .error e
    | .ok (st', upds) =>
      match applyLagMembership st' ps with
      | .error e => .error e
      | .ok (st'', upds') => .ok (st'', upds ++ upds')

section LagApplyLemmas

/-- The `lag` reference carried by the (first) interface named `n`. -/
def lagOf (st : List ApplyIface) (n : String) : Option (Option String) :=
  (st.find? (fun i => i.name == n)).map (fun i => i.lag)

theorem setLag_names (st : List ApplyIface) (n : String) (v : Option String) :
    (setLag st n v).map (fun i => i.name) = st.map (fun i => i.name) := by
  induction st with
  | nil => rfl
  | cons i rest ih =>
    by_cases h : i.name = n <;> simp [setLag, h] at ih ⊢ <;> exact ih

theorem lagOf_setLag (st : List ApplyIface) (m : String) (v : Option String)
    (n : String) :
    lagOf (setLag st m v) n =
      if n = m then (lagOf st n).map (fun _ => v) else lagOf st n := by
  induction st with
  | nil => by_cases h : n = m <;> simp [lagOf, setLag, h]
  | cons i rest ih =>
    have hcons : setLag (i :: rest) m v =
        (if i.name = m then { i with lag := v } else i) :: setLag rest m v := by
      simp [setLag]
    rw [hcons]
    by_cases hin : i.name = n
    · have hbeq : (i.name == n) = true := beq_iff_eq.mpr hin
      by_cases him : i.name = m
      · have hnm : n = m := hin.symm.trans him
        have hbeq' : (({ i with lag := v } : ApplyIface).name == n) = true := hbeq
        simp [lagOf, him, hnm, List.find?_cons, hbeq, hbeq']
      · have hnm : n ≠ m := fun h => him (hin.trans h)
        simp [lagOf, him, hnm, List.find?_cons, hbeq]
    · have hbeq : (i.name == n) = false := beq_eq_false_iff_ne.mpr hin
      by_cases him : i.name = m
      · have hbeq' : (({ i with lag := v } : ApplyIface).name == n) = false := hbeq
        rw [if_pos him]
        rw [show lagOf ({ i with lag := v } :: setLag rest m v) n
              = lagOf (setLag rest m v) n by
            simp [lagOf, List.find?_cons, hbeq']]
        rw [show lagOf (i :: rest) n = lagOf rest n by
            simp [lagOf, List.find?_cons, hbeq]]
        exact ih
      · rw [if_neg him]
        rw [show lagOf (i :: setLag rest m v) n = lagOf (setLag rest m v) n by
            simp [lagOf, List.find?_cons, hbeq]]
        rw [show lagOf (i :: rest) n = lagOf rest n by
            simp [lagOf, List.find?_cons, hbeq]]
        exact ih

theorem mem_currentMembers {st : List ApplyIface} {L x : String} :
    x ∈ currentMembers st L ↔ ∃ i ∈ st, i.lag = some L ∧ i.name = x := by
  simp [currentMembers, List.mem_filter, List.mem_map]
  constructor
  · rintro ⟨i, ⟨hi, hlag⟩, hname⟩
    exact ⟨i, hi, hlag, hname⟩
  · rintro ⟨i, hi, hlag, hname⟩
    exact ⟨i, ⟨hi, hlag⟩, hname⟩

theorem find?_name_of_nodup {st : List ApplyIface} {i : ApplyIface}
    (hnd : (st.map (fun j => j.name)).Nodup) (hi : i ∈ st) :
    st.find? (fun j => j.name == i.name) = some i := by
  induction st with
  | nil => cases hi
  | cons a rest ih =>
    rcases List.mem_cons.mp hi with h | h
    · subst h
      simp [List.find?_cons]
    · have hne : a.name ≠ i.name := by
        intro he
        have : a.name ∈ rest.map (fun j => j.name) :=
          List.mem_map.mpr ⟨i, h, he.symm⟩
        exact (List.nodup_cons.mp hnd).1 this
      have hbeq : (a.name == i.name) = false := beq_eq_false_iff_ne.mpr hne
      rw [List.find?_cons, hbeq]
      exact ih (List.nodup_cons.mp hnd).2 h

theorem mem_currentMembers_iff_lagOf {st : List ApplyIface} {L x : String}
    (hnd : (st.map (fun j => j.name)).Nodup) :
    x ∈ currentMembers st L ↔ lagOf st x = some (some L) := by
  rw [mem_currentMembers]
  constructor
  · rintro ⟨i, hi, hlag, hname⟩
    subst hname
    rw [lagOf, find?_name_of_nodup hnd hi, Option.map_some', hlag]
  · intro h
    unfold lagOf at h
    cases hfind : st.find? (fun j => j.name == x) with
    | none => rw [hfind] at h; cases h
    | some i =>
      rw [hfind, Option.map_some'] at h
      have hi : i ∈ st := List.mem_of_find?_eq_some hfind
      have hpred : (fun (j : ApplyIface) => j.name == x) i = true :=
        List.find?_some (p := fun (j : ApplyIface) => j.name == x) hfind
      have hname : i.name = x := beq_iff_eq.mp hpred
      exact ⟨i, hi, Option.some_inj.mp h, hname⟩

theorem lagOf_isSome_of_mem_names {st : List ApplyIface} {x : String}
    (hx : x ∈ st.map (fun j => j.name)) : (lagOf st x).isSome = true := by
  rcases List.mem_map.mp hx with ⟨i, hi, hname⟩
  subst hname
  unfold lagOf
  cases hfind : st.find? (fun j => j.name == i.name) with
  | none =>
    have := List.find?_eq_none.mp hfind i hi
    simp at this
  | some j => simp

theorem option_const_map_twice {α β : Type} (o : Option α) (v w : β) :
    ((o.map (fun _ => v)).map (fun _ => w)) = o.map (fun _ => w) := by
  cases o <;> rfl

theorem applyAdds_spec (lagName : String) (ms : List String) :
    ∀ st : List ApplyIface, (∀ m ∈ ms, m ∈ st.map (fun j => j.name)) →
    ∃ st', applyAdds st lagName ms =
        .ok (st', ms.map (fun n => (n, some lagName))) ∧
      st'.map (fun j => j.name) = st.map (fun j => j.name) ∧
      ∀ n, lagOf st' n =
        if n ∈ ms then (lagOf st n).map (fun _ => some lagName)
        else lagOf st n := by
  induction ms with
  | nil => exact fun st _ => ⟨st, rfl, rfl, fun n => by simp⟩
  | cons m rest ih =>
    intro st hms
    have hm : m ∈ st.map (fun j => j.name) := hms m (List.mem_cons_self m rest)
    rcases List.mem_map.mp hm with ⟨i, hi, hname⟩
    cases hf : st.find? (fun j => j.name == m) with
    | none =>
      exfalso
      have := List.find?_eq_none.mp hf i hi
      rw [hname] at this
      simp at this
    | some j =>
      have hms' : ∀ m' ∈ rest, m' ∈ (setLag st m (some lagName)).map
          (fun j => j.name) := by
        intro m' hm'
        rw [setLag_names]
        exact hms m' (List.mem_cons_of_mem m hm')
      rcases ih (setLag st m (some lagName)) hms' with ⟨st', heq, hnames, hlag⟩
      refine ⟨st', ?_, ?_, ?_⟩
      · simp [applyAdds, hf, heq]
      · rw [hnames, setLag_names]
      · intro n
        rw [hlag n]
        by_cases hnr : n ∈ rest
        · rw [if_pos hnr, if_pos (List.mem_cons_of_mem m hnr), lagOf_setLag]
          by_cases hnm : n = m
          · rw [if_pos hnm, option_const_map_twice]
          · rw [if_neg hnm]
        · rw [if_neg hnr, lagOf_setLag]
          by_cases hnm : n = m
          · rw [if_pos hnm, if_pos (hnm ▸ List.mem_cons_self m rest)]
          · rw [if_neg hnm, if_neg (by
              intro hc
              rcases List.mem_cons.mp hc with h | h
              · exact hnm h
              · exact hnr h)]

theorem applyRemoves_spec (lagName : String) (ms : List String) :
    ∀ st : List ApplyIface, (∀ m ∈ ms, m ∈ st.map (fun j => j.name)) →
      (applyRemoves st lagName ms).1.map (fun j => j.name) =
        st.map (fun j => j.name) ∧
      (applyRemoves st lagName ms).2 =
        ms.map (fun n => (n, (none : Option String))) ∧
      ∀ n, lagOf (applyRemoves st lagName ms).1 n =
        if n ∈ ms then (lagOf st n).map (fun _ => (none : Option String))
        else lagOf st n := by
  induction ms with
  | nil => exact fun st _ => ⟨rfl, rfl, fun n => by simp [applyRemoves]⟩
  | cons m rest ih =>
    intro st hms
    have hm : m ∈ st.map (fun j => j.name) := hms m (List.mem_cons_self m rest)
    rcases List.mem_map.mp hm with ⟨i, hi, hname⟩
    cases hf : st.find? (fun j => j.name == m) with
    | none =>
      exfalso
      have := List.find?_eq_none.mp hf i hi
      rw [hname] at this
      simp at this
    | some j =>
      have hms' : ∀ m' ∈ rest, m' ∈ (setLag st m none).map (fun j => j.name) := by
        intro m' hm'
        rw [setLag_names]
        exact hms m' (List.mem_cons_of_mem m hm')
      rcases ih (setLag st m none) hms' with ⟨hnames, hupds, hlag⟩
      have hred : applyRemoves st lagName (m :: rest) =
          ((applyRemoves (setLag st m none) lagName rest).1,
           (m, (none : Option String)) ::
             (applyRemoves (setLag st m none) lagName rest).2) := by
        simp [applyRemoves, hf]
      refine ⟨?_, ?_, ?_⟩
      · rw [hred]
        simpa [setLag_names] using hnames
      · rw [hred]
        simp [hupds]
      · intro n
        rw [hred]
        simp only []
        rw [hlag n]
        by_cases hnr : n ∈ rest
        · rw [if_pos hnr, if_pos (List.mem_cons_of_mem m hnr), lagOf_setLag]
          by_cases hnm : n = m
          · rw [if_pos hnm, option_const_map_twice]
          · rw [if_neg hnm]
        · rw [if_neg hnr, lagOf_setLag]
          by_cases hnm : n = m
          · rw [if_pos hnm, if_pos (hnm ▸ List.mem_cons_self m rest)]
          · rw [if_neg hnm, if_neg (by
              intro hc
              rcases List.mem_cons.mp hc with h | h
              · exact hnm h
              · exact hnr h)]

theorem map_fst_pairs {β : Type} (l : List String) (v : β) :
    (l.map (fun n => (n, v))).map Prod.fst = l := by
  induction l with
  | nil => rfl
  | cons a t ih => simp only [List.map_cons, ih]

end LagApplyLemmas

/-- C3: LAG membership reconciliation.  For a LAG proposal whose desired
map carries the member list `mem`, against a remote interface table with
distinct names in which the LAG interface and every desired member exist:
a `noop` proposal is skipped entirely (state unchanged, no updates);
a non-`noop` proposal makes apply compute `to_add = desired − current` and
`to_remove = current − desired` against the live remote membership, issue
exactly one partial update per affected member — additions first, each
group in sorted-name order, setting resp. clearing the LAG reference, no
member updated twice — and afterwards the remote membership equals the
desired member set. -/
theorem C3_lag_membership_reconciliation (st : List ApplyIface)
    (p : Proposal) (mem : List String)
    (hnd : (st.map (fun j => j.name)).Nodup)
    (hmem : pyGet p.desired "members" = some (PyVal.ls mem))
    (hlag : p.identifier ∈ st.map (fun j => j.name))
    (hdes : ∀ m ∈ mem, m ∈ st.map (fun j => j.name)) :
    (p.action = Action.noop → applyLagProposal st p = .ok (st, [])) ∧
    (p.action ≠ Action.noop → ∃ st',
      applyLagProposal st p = .ok (st',
        (sortedSet (mem.filter
            (fun m => !((currentMembers st p.identifier).contains m)))).map
          (fun n => (n, some p.identifier)) ++
        (sortedSet ((currentMembers st p.identifier).filter
            (fun m => !(mem.contains m)))).map
          (fun n => (n, (none : Option String)))) ∧
      sortedSet (currentMembers st' p.identifier) = sortedSet mem ∧
      ((((sortedSet (mem.filter
            (fun m => !((currentMembers st p.identifier).contains m)))).map
          (fun n => (n, some p.identifier)) ++
        (sortedSet ((currentMembers st p.identifier).filter
            (fun m => !(mem.contains m)))).map
          (fun n => (n, (none : Option String)))).map Prod.fst).Nodup)) := by
  constructor
  · intro h
    simp [applyLagProposal, h]
  · intro hne
    set L := p.identifier with hL
    set cur := currentMembers st L with hcur
    set to_add := sortedSet (mem.filter (fun m => !(cur.contains m))) with hta
    set to_remove := sortedSet (cur.filter (fun m => !(mem.contains m))) with htr
    have hAmem : ∀ x, x ∈ to_add ↔ (x ∈ mem ∧ x ∉ cur) := by
      intro x
      rw [hta, mem_sortedSet, List.mem_filter]
      simp
    have hRmem : ∀ x, x ∈ to_remove ↔ (x ∈ cur ∧ x ∉ mem) := by
      intro x
      rw [htr, mem_sortedSet, List.mem_filter]
      simp
    rcases List.mem_map.mp hlag with ⟨li, hli, hliname⟩
    have hf : ∃ j, st.find? (fun i => i.name == L) = some j := by
      cases hfind : st.find? (fun i => i.name == L) with
      | none =>
        exfalso
        have := List.find?_eq_none.mp hfind li hli
        rw [hliname] at this
        simp at this
      | some j => exact ⟨j, rfl⟩
    rcases hf with ⟨j, hf⟩
    have hmsA : ∀ m ∈ to_add, m ∈ st.map (fun j => j.name) := by
      intro m hmA
      exact hdes m ((hAmem m).mp hmA).1
    rcases applyAdds_spec L to_add st hmsA with ⟨st1, heq1, hnames1, hlag1⟩
    have hmsR : ∀ m ∈ to_remove, m ∈ st1.map (fun j => j.name) := by
      intro m hmR
      rw [hnames1]
      have hmcur : m ∈ cur := ((hRmem m).mp hmR).1
      rcases mem_currentMembers.mp (hcur ▸ hmcur) with ⟨i, hi, _, hiname⟩
      exact List.mem_map.mpr ⟨i, hi, hiname⟩
    rcases applyRemoves_spec L to_remove st1 hmsR with ⟨hnames2, hupds2, hlag2⟩
    refine ⟨(applyRemoves st1 L to_remove).1, ?_, ?_, ?_⟩
    · have hstep : applyLagProposal st p =
          .ok ((applyRemoves st1 L to_remove).1,
            to_add.map (fun n => (n, some L)) ++
              (applyRemoves st1 L to_remove).2) := by
        unfold applyLagProposal
        rw [if_neg hne, hmem]
        simp only [← hL, hf, ← hcur, ← hta, heq1]
      rw [hstep, hupds2]
    · have hnd' : ((applyRemoves st1 L to_remove).1.map
          (fun j => j.name)).Nodup := by
        rw [hnames2, hnames1]
        exact hnd
      apply sortedSet_eq_of_mem_iff
      intro x
      rw [mem_currentMembers_iff_lagOf hnd', hlag2 x, hlag1 x]
      by_cases hxR : x ∈ to_remove
      · rw [if_pos hxR]
        have hxmem : x ∉ mem := ((hRmem x).mp hxR).2
        constructor
        · intro h
          exfalso
          cases ho : (if x ∈ to_add then
              (lagOf st x).map (fun _ => some L) else lagOf st x) with
          | none => rw [ho] at h; cases h
          | some v => rw [ho] at h; simp at h
        · intro h
          exact absurd h hxmem
      · rw [if_neg hxR]
        by_cases hxA : x ∈ to_add
        · rw [if_pos hxA]
          have hxm : x ∈ mem := ((hAmem x).mp hxA).1
          have hsome : (lagOf st x).isSome = true :=
            lagOf_isSome_of_mem_names (hdes x hxm)
          constructor
          · intro _
            exact hxm
          · intro _
            cases ho : lagOf st x with
            | none => rw [ho] at hsome; cases hsome
            | some v => rfl
        · rw [if_neg hxA]
          constructor
          · intro h
            have hxcur : x ∈ cur := by
              rw [hcur, mem_currentMembers_iff_lagOf hnd]
              exact h
            by_contra hxm
            exact hxR ((hRmem x).mpr ⟨hxcur, hxm⟩)
          · intro hxm
            have hxcur : x ∈ cur := by
              by_contra hxc
              exact hxA ((hAmem x).mpr ⟨hxm, hxc⟩)
            rw [hcur, mem_currentMembers_iff_lagOf hnd] at hxcur
            exact hxcur
    · have hfst : ((to_add.map (fun n => (n, some L)) ++
          to_remove.map (fun n => (n, (none : Option String)))).map Prod.fst)
            = to_add ++ to_remove := by
        rw [List.map_append, map_fst_pairs, map_fst_pairs]
      rw [hfst]
      refine List.Nodup.append (sortedSet_nodup _) (sortedSet_nodup _) ?_
      intro x hxA hxR
      exact ((hAmem x).mp hxA).2 ((hRmem x).mp hxR).1

/-- Concrete remote interface table for the C3 witness: members `1/1/1`
and `1/1/2` currently reference `LAG 1`;  `1/1/3` does not. -/
def c3St : List ApplyIface :=
  [{ name := "LAG 1", lag := none },
   { name := "1/1/1", lag := some "LAG 1" },
   { name := "1/1/2", lag := some "LAG 1" },
   { name := "1/1/3", lag := none }]

/-- Concrete LAG proposal for the C3 witness: desired members
`{1/1/2, 1/1/3}`. -/
def c3Prop : Proposal :=
  { action := .update, model := "lag", identifier := "LAG 1",
    desired := [("members", some (PyVal.ls ["1/1/2", "1/1/3"]))] }

/-- C3 witness: the reconciliation theorem applied at remote membership
`{1/1/1, 1/1/2}` and desired `{1/1/2, 1/1/3}` — so `to_add = {1/1/3}`,
`to_remove = {1/1/1}`, and the final membership is `{1/1/2, 1/1/3}`. -/
theorem C3_witness :
    c3Prop.action ≠ Action.noop ∧
    (∃ st', applyLagProposal c3St c3Prop = .ok (st',
        (sortedSet (["1/1/2", "1/1/3"].filter
            (fun m => !((currentMembers c3St c3Prop.identifier).contains m)))).map
          (fun n => (n, some c3Prop.identifier)) ++
        (sortedSet ((currentMembers c3St c3Prop.identifier).filter
            (fun m => !(["1/1/2", "1/1/3"].contains m)))).map
          (fun n => (n, (none : Option String)))) ∧
      sortedSet (currentMembers st' c3Prop.identifier) =
        sortedSet ["1/1/2", "1/1/3"] ∧
      ((((sortedSet (["1/1/2", "1/1/3"].filter
            (fun m => !((currentMembers c3St c3Prop.identifier).contains m)))).map
          (fun n => (n, some c3Prop.identifier)) ++
        (sortedSet ((currentMembers c3St c3Prop.identifier).filter
            (fun m => !(["1/1/2", "1/1/3"].contains m)))).map
          (fun n => (n, (none : Option String)))).map Prod.fst).Nodup)) :=
  ⟨by decide,
   (C3_lag_membership_reconciliation c3St c3Prop ["1/1/2", "1/1/3"]
      (by decide) (by decide) (by decide) (by decide)).2 (by decide)⟩

/-! ## String primitives shared by the two slugifiers

All string processing works on `List Char`.  Python's Unicode-aware
`str.lower`/`str.isalnum`/`str.strip` are modelled exactly on ASCII and,
for `isalnum`, additionally on the Latin-1 letter block (enough to witness
where the two slugifiers diverge); this is a partial model of the Unicode
tables, documented per definition. -/

/-- Python's `str.strip()` whitespace set, ASCII part. -/
def pyIsSpace (c : Char) : Bool :=
  (c == ' ') || (c == '\t') || (c == '\n') || (c == '\r') ||
    (c == '\x0b') || (c == '\x0c')

/-- Python `str.lower()` per character; exact on ASCII, identity beyond
(partial model of the Unicode lowercase map). -/
def pyToLowerChar (c : Char) : Char :=
  if 'A' ≤ c ∧ c ≤ 'Z' then Char.ofNat (c.toNat + 32) else c

/-- Python `str.upper()` per character; exact on ASCII. -/
def pyToUpperChar (c : Char) : Char :=
  if 'a' ≤ c ∧ c ≤ 'z' then Char.ofNat (c.toNat - 32) else c

/-- Python `str.isalnum` per character: exact on ASCII; on the Latin-1
block the letters `U+00C0`-`U+00FF` minus `×` and `÷` (partial model of
the Unicode tables — enough to expose the non-ASCII behaviour). -/
def pyIsAlnum (c : Char) : Bool :=
  c.isAlphanum ||
    (0xC0 ≤ c.toNat && c.toNat ≤ 0xFF && c.toNat ≠ 0xD7 && c.toNat ≠ 0xF7)

def pyLower (l : List Char) : List Char := l.map pyToLowerChar

def pyUpper (l : List Char) : List Char := l.map pyToUpperChar

/-- Python `str.strip()` (both ends, whitespace). -/
def pyStrip (l : List Char) : List Char :=
  ((l.dropWhile pyIsSpace).reverse.dropWhile pyIsSpace).reverse

def isDash (c : Char) : Bool := c == '-'

/-- Python `str.strip("-")`. -/
def stripDashes (l : List Char) : List Char :=
  ((l.dropWhile isDash).reverse.dropWhile isDash).reverse

/-- One pass of Python `str.replace("--", "-")`: left-to-right,
non-overlapping. -/
def replaceDoubleDash : List Char → List Char
  | [] => []
  | [c] => [c]
  | a :: b :: rest =>
    if a = '-' ∧ b = '-' then '-' :: replaceDoubleDash rest
    else a :: replaceDoubleDash (b :: rest)

/-- `"--" in result`. -/
def hasDoubleDash : List Char → Bool
  | a :: b :: rest => (a == '-' && b == '-') || hasDoubleDash (b :: rest)
  | _ => false

theorem replaceDoubleDash_length_le :
    ∀ l : List Char, (replaceDoubleDash l).length ≤ l.length
  | [] => by simp [replaceDoubleDash]
  | [c] => by simp [replaceDoubleDash]
  | a :: b :: rest => by
    by_cases h : a = '-' ∧ b = '-'
    · have ih := replaceDoubleDash_length_le rest
      simp only [replaceDoubleDash, if_pos h, List.length_cons]
      omega
    · have ih := replaceDoubleDash_length_le (b :: rest)
      simp only [replaceDoubleDash, if_neg h, List.length_cons]
      simp only [List.length_cons] at ih
      omega

theorem replaceDoubleDash_length_lt :
    ∀ l : List Char, hasDoubleDash l = true →
      (replaceDoubleDash l).length < l.length
  | [] => by intro h; cases h
  | [c] => by intro h; cases h
  | a :: b :: rest => by
    intro h
    by_cases hd : a = '-' ∧ b = '-'
    · have ih := replaceDoubleDash_length_le rest
      simp only [replaceDoubleDash, if_pos hd, List.length_cons]
      omega
    · have hne : (a == '-' && b == '-') = false := by
        cases hab : (a == '-' && b == '-') with
        | false => rfl
        | true =>
          exfalso
          rcases (Bool.and_eq_true _ _).mp hab with ⟨h1, h2⟩
          exact hd ⟨beq_iff_eq.mp h1, beq_iff_eq.mp h2⟩
      have hdd : hasDoubleDash (b :: rest) = true := by
        have h' := h
        rw [show hasDoubleDash (a :: b :: rest) =
            ((a == '-' && b == '-') || hasDoubleDash (b :: rest)) from rfl,
          hne] at h'
        simpa using h'
      have ih := replaceDoubleDash_length_lt (b :: rest) hdd
      simp only [replaceDoubleDash, if_neg hd, List.length_cons]
      simp only [List.length_cons] at ih
      omega

/-- `while "--" in result: result = result.replace("--", "-")`, with the
iteration count bounded by an explicit fuel: each replacement strictly
shortens the list (`replaceDoubleDash_length_lt`), so `l.length` rounds
always reach the loop's fixpoint. -/
def collapseDashesF : Nat → List Char → List Char
  | 0, l => l
  | fuel + 1, l =>
    if hasDoubleDash l then collapseDashesF fuel (replaceDoubleDash l) else l

/-- The `while` loop of `slugify`. -/
def collapseDashes (l : List Char) : List Char := collapseDashesF l.length l

/-- `slugify` (netbox_devices_full.py lines 26-31): strip + lower, map
non-alphanumerics to `-`, collapse `--` runs by iterated replacement,
strip leading/trailing `-`. -/
def slugify (value : String) : String :=
  let cleaned := pyLower (pyStrip value.data)
  let mapped := cleaned.map (fun ch => if pyIsAlnum ch then ch else '-')
  ⟨stripDashes (collapseDashes mapped)⟩

/-- The character class `[a-z0-9]` of `RulesEngine._slugify`'s regex, by
code point (`a`-`z` is 97-122, `0`-`9` is 48-57). -/
def slugChar (c : Char) : Bool :=
  (97 ≤ c.toNat && c.toNat ≤ 122) || (48 ≤ c.toNat && c.toNat ≤ 57)

/-- `re.sub(r"[^a-z0-9]+", "-", value)`, written with a run-state flag:
the flag records whether the scanner is inside a run of characters outside
`[a-z0-9]` (whose first character already emitted the hyphen), so each
maximal run becomes exactly one hyphen. -/
def collapseNonSlugAux : Bool → List Char → List Char
  | _, [] => []
  | inRun, c :: rest =>
    if slugChar c then c :: collapseNonSlugAux false rest
    else if inRun then collapseNonSlugAux true rest
    else '-' :: collapseNonSlugAux true rest

/-- The regex substitution of `RulesEngine._slugify`. -/
def collapseNonSlug (l : List Char) : List Char := collapseNonSlugAux false l

/-- `RulesEngine._slugify` (config_loader.py lines 146-150): strip, lower,
regex-collapse, strip hyphens. -/
def rulesSlugify (value : String) : String :=
  ⟨stripDashes (collapseNonSlug (pyLower (pyStrip value.data)))⟩

/-- Modelled from the spec, for the refinement comparison: the claimed
slugification — "lowercase; any run of non `[a-z0-9]` characters collapses
to a single hyphen; leading/trailing hyphens stripped" (no whitespace
stripping is mentioned). -/
def specSlugify (value : String) : String :=
  ⟨stripDashes (collapseNonSlug (pyLower value.data))⟩

/-! ## The classifier (`RegexRule`, `RulesEngine._apply_rules`,
`RulesEngine.device_type_slug`; config_loader.py)

The compiled regular expression and Python's `str.format` are external
library calls; a rule therefore carries its `pattern.search` success test
and its template-formatting result as abstract functions of the candidate
string, while the selection logic of `RegexRule.apply` (value over
template, `None` results, the case transform) is modelled exactly. -/

structure RegexRule where
  search : String → Bool
  value : Option String
  template : Option String
  format : String → String
  transform : Option String

/-- The `transform == "lower" / "upper"` postprocessing of
`RegexRule.apply`. -/
def applyTransform (t : Option String) (res : String) : String :=
  if t = some "lower" then ⟨pyLower res.data⟩
  else if t = some "upper" then ⟨pyUpper res.data⟩
  else res

/-- `RegexRule.apply` (config_loader.py lines 55-78). -/
def RegexRule.apply (r : RegexRule) (candidate : String) : Option String :=
  if !(r.search candidate) then none
  else
    let result : Option String :=
      if r.value.isSome then r.value
      else if r.template.isSome then some (r.format candidate)
      else none
    match result with
    | none => none
    | some res => some (applyTransform r.transform res)

/-- The `for rule in rules: value = rule.apply(...); if value: return
value` loop shared by `_apply_rules` and `device_type_slug`: the first
truthy (non-`None`, non-empty) derived value. -/
def firstTruthy (candidate : String) : List RegexRule → Option String
  | [] => none
  | r :: rs =>
    match r.apply candidate with
    | some v => if v ≠ "" then some v else firstTruthy candidate rs
    | none => firstTruthy candidate rs

/-- `self.defaults.get(key)`: the configured default for a category
(`none` for both an absent key and a key bound to `None`). -/
def defaultsGet (defaults : List (String × Option String)) (k : String) :
    Option String :=
  match defaults.lookup k with
  | some v => v
  | none => none

/-- `RulesEngine._apply_rules` (config_loader.py lines 136-144): first
truthy rule value, else a truthy default, else `ValueError`. -/
def applyRules (host_name : String) (rules : List RegexRule)
    (defaults : List (String × Option String)) (default_key : String) :
    Except String String :=
  match firstTruthy host_name rules with
  | some v => .ok v
  | none =>
    match defaultsGet defaults default_key with
    | some d =>
      if d ≠ "" then .ok d
      else .error ("No rule matched for " ++ default_key ++
        " and no default configured")
    | none => .error ("No rule matched for " ++ default_key ++
        " and no default configured")

/-- `RulesEngine.device_type_slug` (config_loader.py lines 109-117):
first truthy rule value, else a truthy default, else `_slugify`. -/
def device_type_slug (rules : List RegexRule)
    (defaults : List (String × Option String)) (device_type : String) :
    String :=
  match firstTruthy device_type rules with
  | some v => v
  | none =>
    match defaultsGet defaults "device_type_slug" with
    | some d => if d ≠ "" then d else rulesSlugify device_type
    | none => rulesSlugify device_type

theorem firstTruthy_append_falsy (candidate : String) (pre : List RegexRule)
    (hpre : ∀ q ∈ pre, q.apply candidate = none ∨ q.apply candidate = some "")
    (rest : List RegexRule) :
    firstTruthy candidate (pre ++ rest) = firstTruthy candidate rest := by
  induction pre with
  | nil => rfl
  | cons q pre' ih =>
    rcases hpre q (List.mem_cons_self q pre') with hq | hq
    · rw [List.cons_append]
      rw [show firstTruthy candidate (q :: (pre' ++ rest)) =
          (match q.apply candidate with
           | some v => if v ≠ "" then some v
                       else firstTruthy candidate (pre' ++ rest)
           | none => firstTruthy candidate (pre' ++ rest)) from rfl, hq]
      exact ih (fun q' hq' => hpre q' (List.mem_cons_of_mem q hq'))
    · rw [List.cons_append]
      rw [show firstTruthy candidate (q :: (pre' ++ rest)) =
          (match q.apply candidate with
           | some v => if v ≠ "" then some v
                       else firstTruthy candidate (pre' ++ rest)
           | none => firstTruthy candidate (pre' ++ rest)) from rfl, hq]
      simp only [ne_eq, not_true_eq_false, if_false, ite_self]
      exact ih (fun q' hq' => hpre q' (List.mem_cons_of_mem q hq'))

/-- C4 (amended): first-match-wins, with Python truthiness.  For every
candidate and rule list, classification returns the derived value of the
first rule in declaration order whose derived value is truthy (non-`None`
and non-empty), regardless of any later rules or defaults — never a
score-based choice.  A matching rule whose derived value is `None` or the
empty string is skipped (see the counterexample), which is the one
divergence from the claim as stated. -/
theorem C4_first_match_wins (candidate : String) (pre post : List RegexRule)
    (r : RegexRule) (defaults : List (String × Option String)) (key v : String)
    (hpre : ∀ q ∈ pre, q.apply candidate = none ∨ q.apply candidate = some "")
    (hr : r.apply candidate = some v) (hv : v ≠ "") :
    applyRules candidate (pre ++ r :: post) defaults key = .ok v := by
  unfold applyRules
  rw [firstTruthy_append_falsy candidate pre hpre]
  rw [show firstTruthy candidate (r :: post) =
      (match r.apply candidate with
       | some w => if w ≠ "" then some w else firstTruthy candidate post
       | none => firstTruthy candidate post) from rfl, hr]
  simp [hv]

/-- A rule that matches every candidate but whose template formats to the
empty string. -/
def c4RuleA : RegexRule :=
  { search := fun _ => true, value := none, template := some "{x}",
    format := fun _ => "", transform := none }

/-- A rule that matches every candidate with literal value `b-slug`. -/
def c4RuleB : RegexRule :=
  { search := fun _ => true, value := some "b-slug", template := none,
    format := fun _ => "", transform := none }

/-- C4 counterexample: both rules of `[A, B]` match the candidate; the
first one derives `""`, and classification returns `B`'s value, not the
first matching rule's derived value. -/
theorem C4_counterexample :
    c4RuleA.apply "core-rtr-1" = some "" ∧
    c4RuleB.apply "core-rtr-1" = some "b-slug" ∧
    applyRules "core-rtr-1" [c4RuleA, c4RuleB] [] "role_slug" =
      .ok "b-slug" ∧
    (Except.ok "" : Except String String) ≠ .ok "b-slug" := by
  refine ⟨rfl, rfl, rfl, by simp⟩

/-- A rule that matches nothing. -/
def c4RuleNone : RegexRule :=
  { search := fun _ => false, value := some "unused", template := none,
    format := fun _ => "", transform := none }

/-- C4 witness: first-truthy-match-wins applied to the concrete rule list
`[no-match, B, A]`: the result is `B`'s value. -/
theorem C4_witness :
    applyRules "edge-sw-2" [c4RuleNone, c4RuleB, c4RuleA] [] "role_slug" =
      .ok "b-slug" :=
  C4_first_match_wins "edge-sw-2" [c4RuleNone] [c4RuleA] c4RuleB []
    "role_slug" "b-slug" (by decide) rfl (by decide)

/-- C6 (amended): classification default and failure.  When no
role/site/manufacturer rule yields a truthy value on the candidate,
classification returns the configured default for the category when that
default is truthy (non-`None`, non-empty), and raises a classification
error naming the missing category when the default is absent, `None` or
the empty string; it never returns a value from a non-matching rule (the
result is always the default or the error).  The claim as stated fails
only for a configured empty-string default, which the code treats as not
configured (see the counterexample). -/
theorem C6_default_and_failure (candidate : String) (rules : List RegexRule)
    (defaults : List (String × Option String)) (key : String)
    (hall : ∀ q ∈ rules, q.apply candidate = none ∨ q.apply candidate = some "") :
    (∀ d, defaultsGet defaults key = some d → d ≠ "" →
      applyRules candidate rules defaults key = .ok d) ∧
    (defaultsGet defaults key = none ∨ defaultsGet defaults key = some "" →
      applyRules candidate rules defaults key =
        .error ("No rule matched for " ++ key ++ " and no default configured")) := by
  have hft : firstTruthy candidate rules = none := by
    have h := firstTruthy_append_falsy candidate rules hall []
    rw [List.append_nil] at h
    exact h
  constructor
  · intro d hd hne
    unfold applyRules
    rw [hft, hd]
    simp [hne]
  · intro hd
    unfold applyRules
    rcases hd with hd | hd <;> rw [hft, hd] <;> simp

/-- C6 counterexample: a configured default that is the empty string is
present in the defaults mapping, yet classification raises the
no-default error instead of returning it. -/
theorem C6_counterexample :
    defaultsGet [("role_slug", some "")] "role_slug" = some "" ∧
    applyRules "host-1" [] [("role_slug", some "")] "role_slug" =
      .error "No rule matched for role_slug and no default configured" := by
  constructor
  · rfl
  · rfl

/-- C6 witness: with one non-matching rule and default `core-router`, the
default is returned; with no default, the error names the category. -/
theorem C6_witness :
    applyRules "host-1" [c4RuleNone] [("role_slug", some "core-router")]
      "role_slug" = .ok "core-router" :=
  (C6_default_and_failure "host-1" [c4RuleNone]
    [("role_slug", some "core-router")] "role_slug" (by decide)).1
    "core-router" rfl (by decide)

/-! ## Harvester module dedup
(`NetmikoDataCollector._harvest_nokia_sros`, `add_module`,
netmiko_ssh_handler.py lines 167-183)

`module_entries` is a dict keyed by the `(bay_name, model)` pair; the
harvested module list is its values in insertion order.  The bay/model
pairs arriving from the three extraction sources are the input; `""`
stands for a falsy (absent or empty) bay name or model, exactly as
`if not bay_name or not model` tests them. -/

/-- One `add_module(bay_name, model)` call. -/
def addModule (entries : List ((String × String) × NormalizedModule))
    (bay_name model : String) :
    List ((String × String) × NormalizedModule) :=
  if bay_name = "" ∨ model = "" then entries
  else if (entries.lookup (bay_name, model)).isSome then entries
  else entries ++
    [((bay_name, model), { bay_name := bay_name, module_type_model := model })]

/-- `modules = list(module_entries.values())` after feeding every
`(bay, model)` pair from the three sources through `add_module`. -/
def harvestModules (pairs : List (String × String)) : List NormalizedModule :=
  (pairs.foldl (fun e p => addModule e p.1 p.2) []).map (fun q => q.2)

theorem lookup_isSome_of_mem_keys {α β : Type} [BEq α] [LawfulBEq α]
    {l : List (α × β)} {k : α} (h : k ∈ l.map Prod.fst) :
    (l.lookup k).isSome = true := by
  induction l with
  | nil => cases h
  | cons q rest ih =>
    rcases List.mem_cons.mp h with h1 | h1
    · have hbe : (k == q.1) = true := beq_iff_eq.mpr h1
      rw [List.lookup, hbe]
      rfl
    · rw [List.lookup]
      cases hbe : (k == q.1) with
      | true => rfl
      | false => exact ih h1

theorem harvestModules_inv (pairs : List (String × String)) :
    ∀ entries : List ((String × String) × NormalizedModule),
    (entries.map Prod.fst).Nodup →
    (∀ q ∈ entries, q.2.bay_name = q.1.1 ∧ q.2.module_type_model = q.1.2) →
    ((pairs.foldl (fun e p => addModule e p.1 p.2) entries).map Prod.fst).Nodup ∧
    (∀ q ∈ pairs.foldl (fun e p => addModule e p.1 p.2) entries,
      q.2.bay_name = q.1.1 ∧ q.2.module_type_model = q.1.2) := by
  induction pairs with
  | nil => exact fun entries h1 h2 => ⟨h1, h2⟩
  | cons p rest ih =>
    intro entries h1 h2
    rw [List.foldl_cons]
    apply ih
    · unfold addModule
      by_cases hfalsy : p.1 = "" ∨ p.2 = ""
      · rw [if_pos hfalsy]; exact h1
      · rw [if_neg hfalsy]
        by_cases hdup : ((entries.lookup (p.1, p.2)).isSome : Bool) = true
        · rw [if_pos hdup]; exact h1
        · rw [if_neg hdup]
          rw [List.map_append]
          rw [List.nodup_append]
          refine ⟨h1, by simp, ?_⟩
          intro k hk
          simp only [List.map_cons, List.map_nil, List.mem_singleton]
          intro hk2
          apply hdup
          rw [hk2] at hk
          rw [show ((p.1, p.2) : String × String) = p from rfl] at hk ⊢
          exact lookup_isSome_of_mem_keys hk
    · unfold addModule
      by_cases hfalsy : p.1 = "" ∨ p.2 = ""
      · rw [if_pos hfalsy]; exact h2
      · rw [if_neg hfalsy]
        by_cases hdup : ((entries.lookup (p.1, p.2)).isSome : Bool) = true
        · rw [if_pos hdup]; exact h2
        · rw [if_neg hdup]
          intro q hq
          rcases List.mem_append.mp hq with hq1 | hq1
          · exact h2 q hq1
          · rcases List.mem_singleton.mp hq1 with rfl
            exact ⟨rfl, rfl⟩

/-- C9 (amended): the harvester records at most one module per distinct
`(bay, model)` pair — the pair is the dedup key (first occurrence wins),
so across sources duplicates of the same pair collapse; but two modules
with different models in the same bay both survive, so "at most one
module per bay" does not hold (see the counterexample). -/
theorem C9_at_most_one_module_per_bay_model_pair
    (pairs : List (String × String)) :
    ((harvestModules pairs).map
      (fun m => (m.bay_name, m.module_type_model))).Nodup := by
  have h := harvestModules_inv pairs [] (by simp) (by simp)
  unfold harvestModules
  rw [List.map_map]
  have heq : (pairs.foldl (fun e p => addModule e p.1 p.2) []).map
      ((fun m => (m.bay_name, m.module_type_model)) ∘ (fun q => q.2)) =
      (pairs.foldl (fun e p => addModule e p.1 p.2) []).map Prod.fst := by
    apply List.map_congr_left
    intro q hq
    have := h.2 q hq
    simp [Function.comp, this.1, this.2]
  rw [heq]
  exact h.1

/-- C9 counterexample: the same bay `Card A` reported with two different
models (as the card-detail and show-card listings can do) yields two
normalized modules in that one bay, refuting "at most one module per bay"
(and no last-seen-wins collapse happens). -/
theorem C9_counterexample :
    harvestModules [("Card A", "iom-a"), ("Card A", "iom-b")] =
      [{ bay_name := "Card A", module_type_model := "iom-a" },
       { bay_name := "Card A", module_type_model := "iom-b" }] ∧
    ¬ ((harvestModules [("Card A", "iom-a"), ("Card A", "iom-b")]).map
        (fun m => m.bay_name)).Nodup := by
  constructor
  · decide
  · decide

/-! ## Character-level facts for the slugifier proofs -/

section CharFacts

theorem toNat_ofNat_of_valid {n : Nat} (h : n < 0xD800) :
    (Char.ofNat n).toNat = n := by
  have hv : n.isValidChar := Or.inl h
  unfold Char.ofNat
  rw [dif_pos hv]
  simp [Char.ofNatAux, Char.toNat, UInt32.toNat, UInt32.ofNatCore,
    BitVec.toNat_ofNatLt]

theorem char_le_iff {a b : Char} : a ≤ b ↔ a.toNat ≤ b.toNat := by
  rw [Char.le_def]
  exact Iff.rfl

theorem char_eq_of_toNat_eq {a b : Char} (h : a.toNat = b.toNat) : a = b := by
  apply Char.eq_of_val_eq
  apply UInt32.eq_of_toBitVec_eq
  exact BitVec.eq_of_toNat_eq h

/-- The six Python whitespace characters, concretely. -/
theorem pyIsSpace_cases {c : Char} (h : pyIsSpace c = true) :
    c = ' ' ∨ c = '\t' ∨ c = '\n' ∨ c = '\r' ∨ c = '\x0b' ∨ c = '\x0c' := by
  unfold pyIsSpace at h
  simp only [Bool.or_eq_true, beq_iff_eq] at h
  tauto

/-- Whitespace is untouched by `lower` and is outside `[a-z0-9]`. -/
theorem pyIsSpace_props {c : Char} (h : pyIsSpace c = true) :
    pyToLowerChar c = c ∧ slugChar c = false := by
  rcases pyIsSpace_cases h with h1 | h1 | h1 | h1 | h1 | h1 <;>
    subst h1 <;> exact ⟨by decide, by decide⟩

theorem pyToLowerChar_toNat_of_upper {c : Char}
    (h : 'A' ≤ c ∧ c ≤ 'Z') : (pyToLowerChar c).toNat = c.toNat + 32 := by
  rw [pyToLowerChar, if_pos h]
  have h2 : c.toNat ≤ 90 := by
    have := h.2
    rw [Char.le_def] at this
    exact this
  exact toNat_ofNat_of_valid (by omega)

theorem pyToLowerChar_ascii {c : Char} (h : c.toNat < 128) :
    (pyToLowerChar c).toNat < 128 := by
  by_cases hAZ : 'A' ≤ c ∧ c ≤ 'Z'
  · rw [pyToLowerChar_toNat_of_upper hAZ]
    have h2 : c.toNat ≤ 90 := by
      have := hAZ.2
      rw [Char.le_def] at this
      exact this
    omega
  · rw [pyToLowerChar, if_neg hAZ]
    exact h

theorem isLower_eq_true_iff (c : Char) :
    c.isLower = true ↔ (97 ≤ c.toNat ∧ c.toNat ≤ 122) := by
  unfold Char.isLower
  simp only [Bool.and_eq_true, decide_eq_true_eq]
  exact Iff.rfl

theorem isUpper_eq_true_iff (c : Char) :
    c.isUpper = true ↔ (65 ≤ c.toNat ∧ c.toNat ≤ 90) := by
  unfold Char.isUpper
  simp only [Bool.and_eq_true, decide_eq_true_eq]
  exact Iff.rfl

theorem isDigit_eq_true_iff (c : Char) :
    c.isDigit = true ↔ (48 ≤ c.toNat ∧ c.toNat ≤ 57) := by
  unfold Char.isDigit
  simp only [Bool.and_eq_true, decide_eq_true_eq]
  exact Iff.rfl

theorem slugChar_eq_true_iff (c : Char) :
    slugChar c = true ↔
      ((97 ≤ c.toNat ∧ c.toNat ≤ 122) ∨ (48 ≤ c.toNat ∧ c.toNat ≤ 57)) := by
  unfold slugChar
  simp only [Bool.or_eq_true, Bool.and_eq_true, decide_eq_true_eq]

theorem pyIsAlnum_eq_true_iff_of_ascii {c : Char} (h : c.toNat < 128) :
    pyIsAlnum c = true ↔
      ((65 ≤ c.toNat ∧ c.toNat ≤ 90) ∨ (97 ≤ c.toNat ∧ c.toNat ≤ 122) ∨
        (48 ≤ c.toNat ∧ c.toNat ≤ 57)) := by
  unfold pyIsAlnum Char.isAlphanum Char.isAlpha
  simp only [Bool.or_eq_true, Bool.and_eq_true, decide_eq_true_eq,
    isUpper_eq_true_iff, isLower_eq_true_iff, isDigit_eq_true_iff]
  omega

/-- On the lowercased image of an ASCII character, Python `isalnum` and
the `[a-z0-9]` class coincide. -/
theorem pyIsAlnum_eq_slugChar_of_lower {c : Char} (h : c.toNat < 128) :
    pyIsAlnum (pyToLowerChar c) = slugChar (pyToLowerChar c) := by
  have hascii := pyToLowerChar_ascii h
  by_cases hAZ : 'A' ≤ c ∧ c ≤ 'Z'
  · have hx : (pyToLowerChar c).toNat = c.toNat + 32 :=
      pyToLowerChar_toNat_of_upper hAZ
    have hA : 65 ≤ c.toNat := by
      have := hAZ.1
      rw [Char.le_def] at this
      exact this
    have hZ : c.toNat ≤ 90 := by
      have := hAZ.2
      rw [Char.le_def] at this
      exact this
    have h1 : pyIsAlnum (pyToLowerChar c) = true :=
      (pyIsAlnum_eq_true_iff_of_ascii hascii).mpr (by omega)
    have h2 : slugChar (pyToLowerChar c) = true :=
      (slugChar_eq_true_iff _).mpr (by omega)
    rw [h1, h2]
  · have hxc : pyToLowerChar c = c := by rw [pyToLowerChar, if_neg hAZ]
    rw [hxc]
    have hAZ' : ¬ (65 ≤ c.toNat ∧ c.toNat ≤ 90) := by
      intro hc
      exact hAZ ⟨by rw [Char.le_def]; exact hc.1, by rw [Char.le_def]; exact hc.2⟩
    cases hs : slugChar c with
    | true =>
      rcases (slugChar_eq_true_iff c).mp hs with h1 | h1
      · exact (pyIsAlnum_eq_true_iff_of_ascii h).mpr (by omega)
      · exact (pyIsAlnum_eq_true_iff_of_ascii h).mpr (by omega)
    | false =>
      cases ha : pyIsAlnum c with
      | false => rfl
      | true =>
        exfalso
        rcases (pyIsAlnum_eq_true_iff_of_ascii h).mp ha with h1 | h1 | h1
        · exact hAZ' h1
        · rw [(slugChar_eq_true_iff c).mpr (Or.inl h1)] at hs
          cases hs
        · rw [(slugChar_eq_true_iff c).mpr (Or.inr h1)] at hs
          cases hs

end CharFacts

/-! ## List-level lemmas for the slugifier proofs -/

section SlugListLemmas

theorem dropWhile_append_of_nil {p : Char → Bool} {xs : List Char}
    (h : xs.dropWhile p = []) (ys : List Char) :
    (xs ++ ys).dropWhile p = ys.dropWhile p := by
  induction xs with
  | nil => rfl
  | cons a t ih =>
    cases hp : p a with
    | false =>
      rw [List.dropWhile_cons_of_neg (by rw [hp]; exact Bool.false_ne_true)] at h
      cases h
    | true =>
      rw [List.cons_append, List.dropWhile_cons_of_pos hp]
      rw [List.dropWhile_cons_of_pos hp] at h
      exact ih h

theorem dropWhile_append_of_ne_nil {p : Char → Bool} {xs : List Char}
    (h : xs.dropWhile p ≠ []) (ys : List Char) :
    (xs ++ ys).dropWhile p = xs.dropWhile p ++ ys := by
  induction xs with
  | nil => exact absurd rfl h
  | cons a t ih =>
    cases hp : p a with
    | false =>
      rw [List.cons_append,
        List.dropWhile_cons_of_neg (by rw [hp]; exact Bool.false_ne_true),
        List.dropWhile_cons_of_neg (by rw [hp]; exact Bool.false_ne_true)]
      rfl
    | true =>
      rw [List.dropWhile_cons_of_pos hp] at h
      rw [List.cons_append, List.dropWhile_cons_of_pos hp,
        List.dropWhile_cons_of_pos hp]
      exact ih h

theorem dropWhile_eq_nil_of_all {p : Char → Bool} {l : List Char}
    (h : ∀ c ∈ l, p c = true) : l.dropWhile p = [] := by
  induction l with
  | nil => rfl
  | cons a t ih =>
    rw [List.dropWhile_cons_of_pos (h a (List.mem_cons_self a t))]
    exact ih (fun c hc => h c (List.mem_cons_of_mem a hc))

theorem collapseNonSlugAux_cons_slug {c : Char} (hs : slugChar c = true)
    (flag : Bool) (rest : List Char) :
    collapseNonSlugAux flag (c :: rest) = c :: collapseNonSlugAux false rest := by
  simp only [collapseNonSlugAux]
  rw [if_pos hs]

theorem collapseNonSlugAux_cons_nonslug_true {c : Char}
    (hs : slugChar c = false) (rest : List Char) :
    collapseNonSlugAux true (c :: rest) = collapseNonSlugAux true rest := by
  simp only [collapseNonSlugAux]
  rw [if_neg (by rw [hs]; simp)]
  simp

theorem collapseNonSlugAux_cons_nonslug_false {c : Char}
    (hs : slugChar c = false) (rest : List Char) :
    collapseNonSlugAux false (c :: rest) = '-' :: collapseNonSlugAux true rest := by
  simp only [collapseNonSlugAux]
  rw [if_neg (by rw [hs]; simp), if_neg (by simp)]

/-- Inside a run, the scanner behaves like a fresh scan of the remainder
of the run's end: the run-state collapses to dropping the rest of the
run. -/
theorem collapseNonSlugAux_true (l : List Char) :
    collapseNonSlugAux true l =
      collapseNonSlug (l.dropWhile (fun d => !slugChar d)) := by
  induction l with
  | nil => rfl
  | cons c rest ih =>
    cases hs : slugChar c with
    | true =>
      rw [List.dropWhile_cons_of_neg (by rw [hs]; simp)]
      rw [collapseNonSlugAux_cons_slug hs]
      unfold collapseNonSlug
      rw [collapseNonSlugAux_cons_slug hs]
    | false =>
      rw [List.dropWhile_cons_of_pos (by rw [hs]; rfl)]
      rw [collapseNonSlugAux_cons_nonslug_true hs]
      exact ih

/-- Scanning all-non-slug input: inside a run nothing is emitted, from
outside a run exactly one hyphen is emitted (for non-empty input). -/
theorem collapseNonSlugAux_all_nonslug {w : List Char}
    (hw : ∀ c ∈ w, slugChar c = false) :
    collapseNonSlugAux true w = [] ∧
    collapseNonSlugAux false w = (if w.isEmpty then [] else ['-']) := by
  induction w with
  | nil => exact ⟨rfl, rfl⟩
  | cons c rest ih =>
    have hc : slugChar c = false := hw c (List.mem_cons_self c rest)
    have ih' := ih (fun d hd => hw d (List.mem_cons_of_mem c hd))
    constructor
    · rw [collapseNonSlugAux_cons_nonslug_true hc]
      exact ih'.1
    · rw [collapseNonSlugAux_cons_nonslug_false hc, ih'.1]
      rfl

/-- Appending an all-non-slug suffix adds at most one trailing hyphen to
the collapsed output. -/
theorem collapseNonSlugAux_append_nonslug {w : List Char}
    (hw : ∀ c ∈ w, slugChar c = false) :
    ∀ (l : List Char) (flag : Bool),
      collapseNonSlugAux flag (l ++ w) = collapseNonSlugAux flag l ∨
      collapseNonSlugAux flag (l ++ w) = collapseNonSlugAux flag l ++ ['-'] := by
  intro l
  induction l with
  | nil =>
    intro flag
    rw [List.nil_append]
    cases flag with
    | true =>
      left
      exact (collapseNonSlugAux_all_nonslug hw).1
    | false =>
      rw [(collapseNonSlugAux_all_nonslug hw).2]
      cases hwe : w.isEmpty with
      | true => left; simp [hwe, collapseNonSlugAux]
      | false => right; simp [hwe, collapseNonSlugAux]
  | cons c rest ih =>
    intro flag
    cases hs : slugChar c with
    | true =>
      rw [List.cons_append, collapseNonSlugAux_cons_slug hs,
        collapseNonSlugAux_cons_slug hs]
      rcases ih false with h | h
      · left; rw [h]
      · right; rw [h]; rfl
    | false =>
      rw [List.cons_append]
      cases flag with
      | true =>
        rw [collapseNonSlugAux_cons_nonslug_true hs,
          collapseNonSlugAux_cons_nonslug_true hs]
        exact ih true
      | false =>
        rw [collapseNonSlugAux_cons_nonslug_false hs,
          collapseNonSlugAux_cons_nonslug_false hs]
        rcases ih true with h | h
        · left; rw [h]
        · right; rw [h]; rfl

/-- Dropping a leading non-slug run before collapsing only affects
leading hyphens. -/
theorem stripLead_collapse_dropNonSlug (l : List Char) :
    (collapseNonSlug (l.dropWhile (fun d => !slugChar d))).dropWhile isDash =
    (collapseNonSlug l).dropWhile isDash := by
  cases l with
  | nil => rfl
  | cons c rest =>
    cases hs : slugChar c with
    | true =>
      rw [List.dropWhile_cons_of_neg (by rw [hs]; simp)]
    | false =>
      rw [List.dropWhile_cons_of_pos (by rw [hs]; rfl)]
      unfold collapseNonSlug
      rw [collapseNonSlugAux_cons_nonslug_false hs]
      rw [List.dropWhile_cons_of_pos (by rfl : isDash '-' = true)]
      rw [collapseNonSlugAux_true]
      rfl

/-- Dropping leading whitespace before lowering and collapsing only
affects leading hyphens. -/
theorem stripLead_collapse_lower_dropWS (l : List Char) :
    (collapseNonSlug (pyLower (l.dropWhile pyIsSpace))).dropWhile isDash =
    (collapseNonSlug (pyLower l)).dropWhile isDash := by
  induction l with
  | nil => rfl
  | cons c rest ih =>
    cases hws : pyIsSpace c with
    | false =>
      rw [List.dropWhile_cons_of_neg (by rw [hws]; exact Bool.false_ne_true)]
    | true =>
      rcases pyIsSpace_props hws with ⟨hlc, hsc⟩
      rw [List.dropWhile_cons_of_pos hws]
      rw [ih]
      rw [show pyLower (c :: rest) = c :: pyLower rest by
        unfold pyLower; rw [List.map_cons, hlc]]
      unfold collapseNonSlug
      rw [collapseNonSlugAux_cons_nonslug_false hsc]
      rw [List.dropWhile_cons_of_pos (by rfl : isDash '-' = true)]
      rw [collapseNonSlugAux_true]
      exact (stripLead_collapse_dropNonSlug (pyLower rest)).symm

theorem stripDashes_congr_inner {X Y : List Char}
    (h : X.dropWhile isDash = Y.dropWhile isDash) :
    stripDashes X = stripDashes Y := by
  unfold stripDashes
  rw [h]

theorem stripDashes_append_dash (X : List Char) :
    stripDashes (X ++ ['-']) = stripDashes X := by
  unfold stripDashes
  by_cases h : X.dropWhile isDash = []
  · rw [dropWhile_append_of_nil h, h]
    rfl
  · rw [dropWhile_append_of_ne_nil h, List.reverse_append]
    rw [show ((['-'] : List Char).reverse ++ (X.dropWhile isDash).reverse) =
        '-' :: (X.dropWhile isDash).reverse from rfl]
    rw [List.dropWhile_cons_of_pos (by rfl : isDash '-' = true)]

/-- Python's `strip()` of the raw value is invisible in the slug: the
whitespace either vanishes into hyphens that are stripped, or separates
nothing. -/
theorem strip_ws_irrelevant (l : List Char) :
    stripDashes (collapseNonSlug (pyLower (pyStrip l))) =
    stripDashes (collapseNonSlug (pyLower l)) := by
  have hsplit : l.dropWhile pyIsSpace =
      ((l.dropWhile pyIsSpace).reverse.dropWhile pyIsSpace).reverse ++
      ((l.dropWhile pyIsSpace).reverse.takeWhile pyIsSpace).reverse := by
    conv_lhs => rw [← (l.dropWhile pyIsSpace).reverse_reverse]
    rw [← List.reverse_append, List.takeWhile_append_dropWhile]
  have hw : ∀ c ∈ ((l.dropWhile pyIsSpace).reverse.takeWhile pyIsSpace).reverse,
      pyIsSpace c = true := by
    intro c hc
    rw [List.mem_reverse] at hc
    exact List.mem_takeWhile_imp hc
  have hwns : ∀ c ∈ ((l.dropWhile pyIsSpace).reverse.takeWhile pyIsSpace).reverse,
      slugChar c = false := fun c hc => (pyIsSpace_props (hw c hc)).2
  have hstrip : pyStrip l =
      ((l.dropWhile pyIsSpace).reverse.dropWhile pyIsSpace).reverse := rfl
  have hlowerw :
      (((l.dropWhile pyIsSpace).reverse.takeWhile pyIsSpace).reverse).map
        pyToLowerChar =
      ((l.dropWhile pyIsSpace).reverse.takeWhile pyIsSpace).reverse := by
    have h1 := List.map_congr_left
      (fun a ha => (pyIsSpace_props (hw a ha)).1)
    rw [h1]
    simp
  have hlm : pyLower (l.dropWhile pyIsSpace) =
      pyLower (((l.dropWhile pyIsSpace).reverse.dropWhile pyIsSpace).reverse) ++
      ((l.dropWhile pyIsSpace).reverse.takeWhile pyIsSpace).reverse := by
    conv_lhs => rw [hsplit]
    unfold pyLower
    rw [List.map_append, hlowerw]
  have h2 : stripDashes (collapseNonSlug (pyLower (l.dropWhile pyIsSpace))) =
      stripDashes (collapseNonSlug (pyLower l)) :=
    stripDashes_congr_inner (stripLead_collapse_lower_dropWS l)
  rw [hstrip, ← h2, hlm]
  rcases collapseNonSlugAux_append_nonslug hwns
    (pyLower (((l.dropWhile pyIsSpace).reverse.dropWhile pyIsSpace).reverse))
    false with h | h
  · rw [show collapseNonSlug
        (pyLower (((l.dropWhile pyIsSpace).reverse.dropWhile pyIsSpace).reverse) ++
          ((l.dropWhile pyIsSpace).reverse.takeWhile pyIsSpace).reverse) =
        collapseNonSlug
          (pyLower (((l.dropWhile pyIsSpace).reverse.dropWhile pyIsSpace).reverse))
        from h]
  · rw [show collapseNonSlug
        (pyLower (((l.dropWhile pyIsSpace).reverse.dropWhile pyIsSpace).reverse) ++
          ((l.dropWhile pyIsSpace).reverse.takeWhile pyIsSpace).reverse) =
        collapseNonSlug
          (pyLower (((l.dropWhile pyIsSpace).reverse.dropWhile pyIsSpace).reverse))
          ++ ['-'] from h]
    rw [stripDashes_append_dash]

end SlugListLemmas

/-- C5: device-type slugify fallback.  When no device-type rule matches
and no default is configured, classification returns `_slugify` of the raw
string, and `_slugify` computes exactly the claimed deterministic
slugification — lowercase, every maximal run of characters outside
`[a-z0-9]` collapsed to a single hyphen, leading and trailing hyphens
stripped (the additional whitespace `strip()` the code performs first is
provably invisible in the result); in particular `"Unknown Model 5000"`
yields `"unknown-model-5000"`. -/
theorem C5_device_type_slugify_fallback (rules : List RegexRule)
    (defaults : List (String × Option String)) (device_type : String)
    (hall : ∀ r ∈ rules, r.apply device_type = none)
    (hdef : defaultsGet defaults "device_type_slug" = none) :
    device_type_slug rules defaults device_type = rulesSlugify device_type ∧
    (∀ s : String, rulesSlugify s = specSlugify s) ∧
    rulesSlugify "Unknown Model 5000" = "unknown-model-5000" := by
  refine ⟨?_, ?_, ?_⟩
  · have hft : firstTruthy device_type rules = none := by
      have h := firstTruthy_append_falsy device_type rules
        (fun r hr => Or.inl (hall r hr)) []
      rw [List.append_nil] at h
      exact h
    unfold device_type_slug
    rw [hft, hdef]
  · intro s
    unfold rulesSlugify specSlugify
    exact congrArg String.mk (strip_ws_irrelevant s.data)
  · decide

/-- C5 witness: the fallback theorem at a non-matching rule list, an
empty defaults map and the concrete input `"Unknown Model 5000"`. -/
theorem C5_witness :
    device_type_slug [c4RuleNone] [] "Unknown Model 5000" =
      rulesSlugify "Unknown Model 5000" ∧
    (∀ s : String, rulesSlugify s = specSlugify s) ∧
    rulesSlugify "Unknown Model 5000" = "unknown-model-5000" :=
  C5_device_type_slugify_fallback [c4RuleNone] [] "Unknown Model 5000"
    (by decide) rfl

/-! ## The `while`-loop collapse equals a one-pass dash dedup

`dedupDash` removes the duplicates of every `-` run in one scan; it is the
common normal form through which the iterated `replace("--", "-")` of
`slugify` is compared with the regex collapse of `_slugify`. -/

section DedupDash

/-- One-pass collapse of adjacent `-` runs, with a run-state flag. -/
def dedupDashAux : Bool → List Char → List Char
  | _, [] => []
  | inRun, c :: rest =>
    if c = '-' then
      if inRun then dedupDashAux true rest else '-' :: dedupDashAux true rest
    else c :: dedupDashAux false rest

def dedupDash (l : List Char) : List Char := dedupDashAux false l

theorem dedupDashAux_true_dash (rest : List Char) :
    dedupDashAux true ('-' :: rest) = dedupDashAux true rest := by
  simp [dedupDashAux]

theorem dedupDashAux_false_dash (rest : List Char) :
    dedupDashAux false ('-' :: rest) = '-' :: dedupDashAux true rest := by
  simp [dedupDashAux]

theorem dedupDashAux_cons_ne {c : Char} (hc : ¬ c = '-') (flag : Bool)
    (rest : List Char) :
    dedupDashAux flag (c :: rest) = c :: dedupDashAux false rest := by
  simp [dedupDashAux, hc]

theorem dedupDashAux_true_eq (l : List Char) :
    dedupDashAux true l = dedupDash (l.dropWhile (fun d => d = '-')) := by
  induction l with
  | nil => rfl
  | cons c rest ih =>
    by_cases hc : c = '-'
    · subst hc
      rw [dedupDashAux_true_dash, List.dropWhile_cons_of_pos (by simp)]
      exact ih
    · rw [dedupDashAux_cons_ne hc, List.dropWhile_cons_of_neg (by simp [hc])]
      unfold dedupDash
      rw [dedupDashAux_cons_ne hc]

/-- The regex collapse of the lowercased text equals the dash dedup of the
character-mapped text, when `isalnum` and `[a-z0-9]` agree pointwise. -/
theorem collapseAux_eq_dedupAux_map {l : List Char}
    (h : ∀ c ∈ l, pyIsAlnum c = slugChar c) (flag : Bool) :
    collapseNonSlugAux flag l =
      dedupDashAux flag (l.map (fun ch => if pyIsAlnum ch then ch else '-')) := by
  induction l generalizing flag with
  | nil => rfl
  | cons c rest ih =>
    have hc := h c (List.mem_cons_self c rest)
    have hrest := fun d hd => h d (List.mem_cons_of_mem c hd)
    cases hs : slugChar c with
    | true =>
      have ha : pyIsAlnum c = true := by rw [hc, hs]
      have hcd : ¬ c = '-' := by
        intro he
        subst he
        exact absurd hs (by decide)
      rw [collapseNonSlugAux_cons_slug hs, List.map_cons,
        show (if pyIsAlnum c then c else '-') = c by simp [ha],
        dedupDashAux_cons_ne hcd, ih hrest false]
    | false =>
      have ha : pyIsAlnum c = false := by rw [hc, hs]
      rw [List.map_cons, show (if pyIsAlnum c then c else '-') = '-' by simp [ha]]
      cases flag with
      | true =>
        rw [collapseNonSlugAux_cons_nonslug_true hs, dedupDashAux_true_dash,
          ih hrest true]
      | false =>
        rw [collapseNonSlugAux_cons_nonslug_false hs, dedupDashAux_false_dash,
          ih hrest true]

theorem hasDoubleDash_cons₂ (a b : Char) (t : List Char) :
    hasDoubleDash (a :: b :: t) =
      ((a == '-' && b == '-') || hasDoubleDash (b :: t)) := rfl

theorem replace_cons_ne {c : Char} (hc : ¬ c = '-') (rest : List Char) :
    replaceDoubleDash (c :: rest) = c :: replaceDoubleDash rest := by
  cases rest with
  | nil => rfl
  | cons d t =>
    rw [show replaceDoubleDash (c :: d :: t) =
        (if c = '-' ∧ d = '-' then '-' :: replaceDoubleDash t
         else c :: replaceDoubleDash (d :: t)) from rfl]
    rw [if_neg (fun hand => hc hand.1)]

/-- A list without adjacent dashes is a `dedupDash` fixpoint. -/
theorem dedupDash_eq_self_of_no_double :
    ∀ x : List Char, hasDoubleDash x = false → dedupDash x = x
  | [] => fun _ => rfl
  | [c] => fun _ => by
    by_cases hc : c = '-'
    · subst hc
      unfold dedupDash
      rw [dedupDashAux_false_dash]
      rfl
    · unfold dedupDash
      rw [dedupDashAux_cons_ne hc]
      rfl
  | a :: b :: t => fun h => by
    have hsplit : (a == '-' && b == '-') = false ∧
        hasDoubleDash (b :: t) = false := by
      rw [hasDoubleDash_cons₂] at h
      cases h1 : (a == '-' && b == '-') with
      | true => rw [h1] at h; cases h
      | false =>
        rw [h1] at h
        exact ⟨rfl, by simpa using h⟩
    have ihb := dedupDash_eq_self_of_no_double (b :: t) hsplit.2
    by_cases ha : a = '-'
    · subst ha
      have hb : ¬ b = '-' := by
        intro hb
        subst hb
        exact absurd hsplit.1 (by decide)
      unfold dedupDash
      rw [dedupDashAux_false_dash, dedupDashAux_cons_ne hb]
      unfold dedupDash at ihb
      rw [dedupDashAux_cons_ne hb] at ihb
      have h2 : dedupDashAux false t = t := by
        injection ihb
      rw [h2]
    · unfold dedupDash
      rw [dedupDashAux_cons_ne ha]
      unfold dedupDash at ihb
      rw [ihb]

/-- One `replace("--","-")` pass is invisible modulo `dedupDash`, both
directly and after dropping a leading dash run. -/
theorem dedupDash_replace (n : Nat) :
    ∀ x : List Char, x.length ≤ n →
      dedupDash (replaceDoubleDash x) = dedupDash x ∧
      dedupDash ((replaceDoubleDash x).dropWhile (fun d => d = '-')) =
        dedupDash (x.dropWhile (fun d => d = '-')) := by
  induction n with
  | zero =>
    intro x hx
    have : x = [] := List.length_eq_zero.mp (Nat.le_zero.mp hx)
    subst this
    exact ⟨rfl, rfl⟩
  | succ n ih =>
    intro x hx
    match x with
    | [] => exact ⟨rfl, rfl⟩
    | [c] => exact ⟨rfl, rfl⟩
    | a :: b :: t =>
      by_cases hd : a = '-' ∧ b = '-'
      · rcases hd with ⟨ha, hb⟩
        subst ha
        subst hb
        have hrepl : replaceDoubleDash ('-' :: '-' :: t) =
            '-' :: replaceDoubleDash t := by
          rw [show replaceDoubleDash ('-' :: '-' :: t) =
              (if ('-' : Char) = '-' ∧ ('-' : Char) = '-' then
                '-' :: replaceDoubleDash t
              else '-' :: replaceDoubleDash ('-' :: t)) from rfl]
          rw [if_pos ⟨rfl, rfl⟩]
        have hH := (ih t (by simp at hx; omega)).2
        constructor
        · rw [hrepl]
          unfold dedupDash
          rw [dedupDashAux_false_dash, dedupDashAux_false_dash,
            dedupDashAux_true_dash, dedupDashAux_true_eq,
            dedupDashAux_true_eq]
          rw [hH]
        · rw [hrepl]
          rw [List.dropWhile_cons_of_pos (by simp),
            List.dropWhile_cons_of_pos (by simp),
            List.dropWhile_cons_of_pos (by simp)]
          exact hH
      · have hrepl : replaceDoubleDash (a :: b :: t) =
            a :: replaceDoubleDash (b :: t) := by
          rw [show replaceDoubleDash (a :: b :: t) =
              (if a = '-' ∧ b = '-' then '-' :: replaceDoubleDash t
               else a :: replaceDoubleDash (b :: t)) from rfl]
          rw [if_neg hd]
        have hG := (ih (b :: t) (by simp at hx ⊢; omega)).1
        by_cases ha : a = '-'
        · subst ha
          have hb : ¬ b = '-' := fun hb => hd ⟨rfl, hb⟩
          have hreplb : replaceDoubleDash (b :: t) =
              b :: replaceDoubleDash t := replace_cons_ne hb t
          constructor
          · rw [hrepl]
            unfold dedupDash
            rw [dedupDashAux_false_dash, dedupDashAux_false_dash,
              dedupDashAux_true_eq, dedupDashAux_true_eq]
            rw [hreplb, List.dropWhile_cons_of_neg (by simp [hb]),
              List.dropWhile_cons_of_neg (by simp [hb])]
            rw [← hreplb, hG]
          · rw [hrepl]
            rw [List.dropWhile_cons_of_pos (by simp),
              List.dropWhile_cons_of_pos (by simp)]
            rw [hreplb, List.dropWhile_cons_of_neg (by simp [hb]),
              List.dropWhile_cons_of_neg (by simp [hb])]
            rw [← hreplb]
            exact hG
        · constructor
          · rw [hrepl]
            unfold dedupDash
            rw [dedupDashAux_cons_ne ha, dedupDashAux_cons_ne ha]
            have : dedupDashAux false (replaceDoubleDash (b :: t)) =
                dedupDashAux false (b :: t) := hG
            rw [this]
          · rw [hrepl]
            rw [List.dropWhile_cons_of_neg (by simp [ha]),
              List.dropWhile_cons_of_neg (by simp [ha])]
            rw [hrepl] at *
            unfold dedupDash
            rw [dedupDashAux_cons_ne ha, dedupDashAux_cons_ne ha]
            have : dedupDashAux false (replaceDoubleDash (b :: t)) =
                dedupDashAux false (b :: t) := hG
            rw [this]

/-- The fueled `while` loop computes the one-pass dedup whenever the fuel
covers the list length (each pass strictly shortens the list). -/
theorem collapseDashesF_eq_dedupDash :
    ∀ (fuel : Nat) (l : List Char), l.length ≤ fuel →
      collapseDashesF fuel l = dedupDash l := by
  intro fuel
  induction fuel with
  | zero =>
    intro l hl
    have : l = [] := List.length_eq_zero.mp (Nat.le_zero.mp hl)
    subst this
    rfl
  | succ n ih =>
    intro l hl
    unfold collapseDashesF
    cases h : hasDoubleDash l with
    | true =>
      rw [if_pos rfl]
      have hlt := replaceDoubleDash_length_lt l h
      rw [ih (replaceDoubleDash l) (by omega)]
      exact (dedupDash_replace l.length l (le_refl _)).1
    | false =>
      rw [if_neg (by simp)]
      exact (dedupDash_eq_self_of_no_double l h).symm

end DedupDash

/-- C10 (amended): the two slugification routines agree on every string
of ASCII characters — the module-level `slugify` (Python `isalnum`,
iterated `--` replacement) and the classifier's `_slugify` (regex
`[^a-z0-9]+` collapse) compute the same result there.  On non-ASCII input
they differ, because Python's `isalnum` accepts letters outside `a-z`
that the regex class rejects (see the counterexample). -/
theorem C10_slugifiers_agree_on_ascii (s : String)
    (h : ∀ c ∈ s.data, c.toNat < 128) :
    slugify s = rulesSlugify s := by
  unfold slugify rulesSlugify
  apply congrArg String.mk
  have hclean : ∀ c ∈ pyLower (pyStrip s.data), pyIsAlnum c = slugChar c := by
    intro c hc
    unfold pyLower at hc
    rcases List.mem_map.mp hc with ⟨d, hd, hdc⟩
    have hd' : d ∈ s.data := by
      unfold pyStrip at hd
      rw [List.mem_reverse] at hd
      have h1 := (List.dropWhile_sublist (l := (s.data.dropWhile pyIsSpace).reverse)
        pyIsSpace).subset hd
      rw [List.mem_reverse] at h1
      exact (List.dropWhile_sublist pyIsSpace).subset h1
    rw [← hdc]
    exact pyIsAlnum_eq_slugChar_of_lower (h d hd')
  rw [show collapseDashes
      ((pyLower (pyStrip s.data)).map (fun ch => if pyIsAlnum ch then ch else '-'))
      = dedupDash ((pyLower (pyStrip s.data)).map
          (fun ch => if pyIsAlnum ch then ch else '-')) from
    collapseDashesF_eq_dedupDash _ _ (le_refl _)]
  rw [show (dedupDash ((pyLower (pyStrip s.data)).map
      (fun ch => if pyIsAlnum ch then ch else '-'))) =
      collapseNonSlug (pyLower (pyStrip s.data)) from
    (collapseAux_eq_dedupAux_map hclean false).symm]

/-- C10 counterexample: on `"é"` the module-level `slugify` keeps the
letter (Python `isalnum` accepts it) while `_slugify` collapses it to a
hyphen and strips it, so the two routines disagree. -/
theorem C10_counterexample :
    slugify "é" = "é" ∧ rulesSlugify "é" = "" ∧
    slugify "é" ≠ rulesSlugify "é" := by
  refine ⟨by decide, by decide, by decide⟩

/-- C10 witness: agreement on a concrete ASCII string. -/
theorem C10_witness :
    slugify "NetBox Device 01" = rulesSlugify "NetBox Device 01" :=
  C10_slugifiers_agree_on_ascii "NetBox Device 01" (by decide)

end NetboxImporter
